import Mathlib

/-!
# kinect-sandbox: a verification development of `main.cpp`

The program reads colour and depth frames from a Kinect sensor, converts
them to 8-bit buffers and draws them on a quad under a calibration matrix.

Modelling conventions.

* `USHORT`, `BYTE`, `GLubyte` values are natural numbers; C `int` values
  are integers (no computation below leaves the 32-bit range for 16-bit
  samples).  The conversion `(GLubyte) x` is reduction modulo 256.
* `float` globals live in a scalar type `F`.  Operations that only add or
  subtract are stated for any `F` with `+` and `-` (no laws assumed, so
  IEEE rounding is covered).  Statements about the values in the
  calibration matrix take `F` to be `Binary32`: IEEE 754 binary32 with
  round-to-nearest-even, every `float` operation rounding once.
* A `vector<GLubyte>` is a list of bytes.  A store through `operator[]` or
  a raw pointer past the end of the vector has no defined behaviour:
  `store` returns `none` there, and every function that stores is
  `Option`-valued.
* The sensor is an input: each call into the Kinect API is represented by
  the values it hands back.
-/

namespace KinectSandbox

/-! ## Constants and machine arithmetic -/

/-- Kinect image width, `const GLint texWidth = 640`. -/
def texWidth : Nat := 640

/-- Kinect image height, `const GLint texHeight = 480`. -/
def texHeight : Nat := 480

/-- Windows result code. -/
abbrev HRESULT := Int

/-- Windows `FAILED(hr)`: the result code is negative. -/
def FAILED (hr : HRESULT) : Bool := decide (hr < 0)

/-- Windows `SUCCEEDED(hr)`: the result code is non-negative. -/
def SUCCEEDED (hr : HRESULT) : Bool := decide (0 ≤ hr)

/-- Windows `S_OK`. -/
def S_OK : HRESULT := 0

/-- C++ `a % b` on `int`: the remainder of division truncated towards zero,
with the sign of the dividend. -/
def cRem (a b : Int) : Int := Int.tmod a b

/-- C++ `(GLubyte) x` for an `int` x: the value modulo 256. -/
def toGLubyte (x : Int) : Nat := (x % 256).toNat

/-- Constants of the Kinect header `NuiImageCamera.h` that `kinectGetDepth`
uses.  The header is not part of the repository, so the values are
parameters. -/
structure NuiImageCamera where
  NUI_IMAGE_PLAYER_INDEX_SHIFT : Nat
  NUI_IMAGE_DEPTH_MINIMUM : Int
  NUI_IMAGE_DEPTH_MAXIMUM : Int
  NUI_IMAGE_DEPTH_MINIMUM_NEAR_MODE : Int
  NUI_IMAGE_DEPTH_MAXIMUM_NEAR_MODE : Int

/-- The values the Kinect for Windows SDK 1.x header gives the constants:
shift 3, minimum `800 << 3`, maximum `(4000 << 3) | 7`, near-mode minimum
`400 << 3`, near-mode maximum `(3000 << 3) | 7`. -/
def sdkConstants : NuiImageCamera where
  NUI_IMAGE_PLAYER_INDEX_SHIFT := 3
  NUI_IMAGE_DEPTH_MINIMUM := 6400
  NUI_IMAGE_DEPTH_MAXIMUM := 32007
  NUI_IMAGE_DEPTH_MINIMUM_NEAR_MODE := 3200
  NUI_IMAGE_DEPTH_MAXIMUM_NEAR_MODE := 24007

/-- One element of a depth frame, `NUI_DEPTH_IMAGE_PIXEL`. -/
structure NUI_DEPTH_IMAGE_PIXEL where
  playerIndex : Nat
  depth : Nat

/-! ## The per-sample depth conversion -/

/-- The right-hand side of `main.cpp` line 327,
`(GLubyte)(depth >= minDepth && depth <= maxDepth ? (depth - 32) % 256 : 0)`,
where `depth` is a `USHORT` promoted to `int`. -/
def depthToByte (minDepth maxDepth : Int) (depth : Nat) : Nat :=
  toGLubyte
    (if (depth : Int) ≥ minDepth ∧ (depth : Int) ≤ maxDepth
      then cRem ((depth : Int) - 32) 256
      else 0)

/-- Line 316: `minDepth` of the current frame. -/
def minDepthOf (c : NuiImageCamera) (nearMode : Bool) : Int :=
  (if nearMode then c.NUI_IMAGE_DEPTH_MINIMUM_NEAR_MODE else c.NUI_IMAGE_DEPTH_MINIMUM)
    >>> c.NUI_IMAGE_PLAYER_INDEX_SHIFT

/-- Line 317: `maxDepth` of the current frame. -/
def maxDepthOf (c : NuiImageCamera) (nearMode : Bool) : Int :=
  (if nearMode then c.NUI_IMAGE_DEPTH_MAXIMUM_NEAR_MODE else c.NUI_IMAGE_DEPTH_MAXIMUM)
    >>> c.NUI_IMAGE_PLAYER_INDEX_SHIFT

/-! ## Global state -/

/-- Pixel transfer format named in a `glTexImage2D` call. -/
inductive PixelFormat
  | GL_RGBA
  | GL_BGRA
  | GL_RED
  deriving DecidableEq, Repr

/-- What a `glTexImage2D` call leaves in a texture object: the transfer
format and the bytes read from the client buffer. -/
structure TexImage where
  format : PixelFormat
  pixels : List Nat
  deriving DecidableEq, Repr

/-- The two texture objects of the program. -/
inductive Texture
  | colorTex
  | depthTex
  deriving DecidableEq, Repr

/-- The globals of `main.cpp` that the sensor, display and input code reads
or writes, with the function-local `static bool fine` of `keyPress` and the
contents of the two texture objects.  Shader, vertex array and window
handles are left out. -/
structure State (F : Type) where
  colorData : List Nat
  depthData : List Nat
  viewmode : Int
  kpLeft : F
  kpRight : F
  kpTop : F
  kpBottom : F
  fine : Bool
  colorTexImage : Option TexImage
  depthTexImage : Option TexImage
  leftMainLoop : Bool

/-- The globals as the static initialisers leave them, before `main` runs. -/
def staticInit {F : Type} [OfScientific F] [Neg F] : State F where
  colorData := []
  depthData := []
  viewmode := 0
  kpLeft := -0.00800092
  kpRight := 0.932997
  kpTop := 0.968996
  kpBottom := 0.0950001
  fine := false
  colorTexImage := none
  depthTexImage := none
  leftMainLoop := false

/-- The function `initState`; of its assignments the one to a modelled
global is `viewmode = 1`. -/
def initState {F : Type} (s : State F) : State F :=
  { s with viewmode := 1 }

/-- The function `initTextures`: both vectors are allocated, filled with
255, and uploaded. -/
def initTextures {F : Type} (s : State F) : State F :=
  let colorData := List.replicate (texWidth * texHeight * 4) 255
  let depthData := List.replicate (texWidth * texHeight) 255
  { s with
    colorData := colorData
    depthData := depthData
    colorTexImage := some ⟨PixelFormat.GL_RGBA, colorData⟩
    depthTexImage := some ⟨PixelFormat.GL_RED, depthData⟩ }

/-! ## Frame acquisition -/

/-- A store `buf[i] = v` into a vector: defined only inside the vector. -/
def store (buf : List Nat) (i : Nat) (v : Nat) : Option (List Nat) :=
  if i < buf.length then some (buf.set i v) else none

/-- What the sensor hands `kinectGetColor`: the result of
`NuiImageStreamGetNextFrame` and the locked rectangle (`pBits k` is the
byte at offset `k`). -/
structure ColorFrame where
  hr : HRESULT
  Pitch : Int
  pBits : Nat → Nat

/-- What the sensor hands `kinectGetDepth`: the results of
`NuiImageStreamGetNextFrame` and of
`NuiImageFrameGetDepthImagePixelFrameTexture`, the near-mode flag and the
locked rectangle (`pBits k` is the pixel at index `k`). -/
structure DepthFrame where
  hr : HRESULT
  hrTexture : HRESULT
  nearMode : Bool
  Pitch : Int
  pBits : Nat → NUI_DEPTH_IMAGE_PIXEL

/-- The loop of lines 274-276, `while (curr < dataEnd) *dest++ = *curr++;`.
`remaining` is `dataEnd - curr`, `k` the common offset of `curr` and `dest`
from their starts. -/
def colorCopyLoop (pBits : Nat → Nat) : (remaining k : Nat) → List Nat → Option (List Nat)
  | 0, _, colorData => some colorData
  | remaining + 1, k, colorData =>
    match store colorData k (pBits k) with
    | none => none
    | some colorData1 => colorCopyLoop pBits remaining (k + 1) colorData1

/-- The loop of lines 322-329.  `remaining` is `pBufferEnd - pBufferRun`,
`run` the offset of `pBufferRun` from the start of the frame and `i` the
index into `depthData`. -/
def depthLoop (minDepth maxDepth : Int) (pBits : Nat → NUI_DEPTH_IMAGE_PIXEL) :
    (remaining run i : Nat) → List Nat → Option (List Nat)
  | 0, _, _, depthData => some depthData
  | remaining + 1, run, i, depthData =>
    let depth := (pBits run).depth
    match store depthData i (depthToByte minDepth maxDepth depth) with
    | none => none
    | some depthData1 => depthLoop minDepth maxDepth pBits remaining (run + 1) (i + 1) depthData1

/-- Lines 269-277 of `kinectGetColor`: the copy, guarded by the pitch. -/
def colorCopy (lockedRect : ColorFrame) (colorData : List Nat) : Option (List Nat) :=
  if lockedRect.Pitch ≠ 0 then
    colorCopyLoop lockedRect.pBits (texWidth * texHeight * 4) 0 colorData
  else some colorData

/-- Lines 314-330 of `kinectGetDepth`: the depth normalizer, guarded by the
pitch. -/
def depthNormalize (c : NuiImageCamera) (nearMode : Bool) (lockedRect : DepthFrame)
    (depthData : List Nat) : Option (List Nat) :=
  if lockedRect.Pitch ≠ 0 then
    let minDepth := minDepthOf c nearMode
    let maxDepth := maxDepthOf c nearMode
    depthLoop minDepth maxDepth lockedRect.pBits (texWidth * texHeight) 0 0 depthData
  else some depthData

/-- The function `kinectGetColor`. -/
def kinectGetColor {F : Type} (frame : ColorFrame) (s : State F) : Option (State F) :=
  if frame.hr < 0 then some s
  else
    match colorCopy frame s.colorData with
    | none => none
    | some colorData =>
      some { s with
        colorData := colorData
        colorTexImage := some ⟨PixelFormat.GL_BGRA, colorData⟩ }

/-- The function `kinectGetDepth`. -/
def kinectGetDepth {F : Type} (c : NuiImageCamera) (frame : DepthFrame) (s : State F) :
    Option (State F) :=
  if FAILED frame.hr then some s
  else if FAILED frame.hrTexture then some s
  else
    match depthNormalize c frame.nearMode frame s.depthData with
    | none => none
    | some depthData =>
      some { s with
        depthData := depthData
        depthTexImage := some ⟨PixelFormat.GL_RED, depthData⟩ }

/-! ## The calibration matrix and the draw -/

/-- A glm `mat4`: `m c r` is `m[c][r]`, column `c`, row `r`. -/
abbrev Mat4 (F : Type) := Fin 4 → Fin 4 → F

/-- A glm `vec4`. -/
structure Vec4 (F : Type) where
  x : F
  y : F
  z : F
  w : F

/-- The glm constructor `mat4(1.0f)`: ones on the diagonal, zeros elsewhere. -/
def Mat4.diag1 {F : Type} [Zero F] [One F] : Mat4 F :=
  fun c r => if c = r then 1 else 0

/-- The assignment `m[c][r] = v`. -/
def Mat4.assign {F : Type} (m : Mat4 F) (c r : Fin 4) (v : F) : Mat4 F :=
  fun c1 r1 => if c1 = c ∧ r1 = r then v else m c1 r1

/-- The product `m * v` of a `mat4` and a `vec4`, as glm and GLSL define it
for column-major matrices: row `r` of the result is the sum over the
columns `c` of `m[c][r] * v[c]`.  Over `ℚ` it is the exact product, over
`Binary32` every product and sum is rounded. -/
def Mat4.mulVec {F : Type} [Add F] [Mul F] (m : Mat4 F) (v : Vec4 F) : Vec4 F where
  x := m 0 0 * v.x + m 1 0 * v.y + m 2 0 * v.z + m 3 0 * v.w
  y := m 0 1 * v.x + m 1 1 * v.y + m 2 1 * v.z + m 3 1 * v.w
  z := m 0 2 * v.x + m 1 2 * v.y + m 2 2 * v.z + m 3 2 * v.w
  w := m 0 3 * v.x + m 1 3 * v.y + m 2 3 * v.z + m 3 3 * v.w

/-- Lines 368-372 of `display`: the matrix `xform` built from the four
calibration bounds. -/
def displayXform {F : Type} [Zero F] [One F] [Sub F] (kpLeft kpRight kpTop kpBottom : F) :
    Mat4 F :=
  let xform : Mat4 F := Mat4.diag1
  let xform := xform.assign 0 0 (kpRight - kpLeft)
  let xform := xform.assign 3 0 kpLeft
  let xform := xform.assign 1 1 (kpTop - kpBottom)
  let xform := xform.assign 3 1 kpBottom
  xform

/-- What `display` hands the graphics pipeline for its draw call: the
texture bound to unit 0, the `xform` uniform and the `viewmode` uniform. -/
structure DrawCall (F : Type) where
  texture : Texture
  xform : Mat4 F
  viewmode : Int

/-- What the sensor has for one tick: the colour frame and the depth frame
it would hand out if asked. -/
structure SensorTick where
  color : ColorFrame
  depth : DepthFrame

/-- The function `display`: one frame is fetched from the source `viewmode`
selects, then the quad is drawn with the texture `viewmode` selects. -/
def display {F : Type} [Zero F] [One F] [Sub F] (c : NuiImageCamera) (sensor : SensorTick)
    (s : State F) : Option (State F × DrawCall F) :=
  match (if s.viewmode = 0 then kinectGetColor sensor.color s
         else kinectGetDepth c sensor.depth s) with
  | none => none
  | some s1 =>
    some (s1,
      { texture := if s1.viewmode = 0 then Texture.colorTex else Texture.depthTex
        xform := displayXform s1.kpLeft s1.kpRight s1.kpTop s1.kpBottom
        viewmode := s1.viewmode })

/-! ## Binary32 arithmetic -/

/-- Rounding of a rational to the nearest integer, a tie going to the even
neighbour. -/
def roundHalfEven (q : ℚ) : ℤ :=
  let f := ⌊q⌋
  if q - f < 1 / 2 then f
  else if 1 / 2 < q - f then f + 1
  else if f % 2 = 0 then f
  else f + 1

/-- IEEE 754 round-to-nearest-even of a rational to a binary format with `p`
significant bits whose last place is never below `2 ^ emin`, the exponent
being unbounded above. -/
def roundBinary (p : Nat) (emin : Int) (q : ℚ) : ℚ :=
  if q = 0 then 0
  else
    let e := max (Int.log 2 |q| - ((p : Int) - 1)) emin
    (roundHalfEven (q / 2 ^ e) : ℚ) * 2 ^ e

/-- A C++ `float` (IEEE 754 binary32): a finite number, or a value that is
not one (an infinity or a NaN).  The two zeros are one value. -/
inductive Binary32
  | finite (q : ℚ)
  | nonfinite
  deriving DecidableEq

/-- Rounding of an exact result to binary32: 24 significant bits, last place
at least `2 ^ (-149)`, overflow from `2 ^ 128` on. -/
def Binary32.round (q : ℚ) : Binary32 :=
  let v := roundBinary 24 (-149) q
  if |v| < 2 ^ 128 then Binary32.finite v else Binary32.nonfinite

/-- Binary32 addition: the exact sum, rounded; not finite when an operand is
not. -/
def Binary32.add : Binary32 → Binary32 → Binary32
  | Binary32.finite a, Binary32.finite b => Binary32.round (a + b)
  | _, _ => Binary32.nonfinite

/-- Binary32 subtraction: the exact difference, rounded. -/
def Binary32.sub : Binary32 → Binary32 → Binary32
  | Binary32.finite a, Binary32.finite b => Binary32.round (a - b)
  | _, _ => Binary32.nonfinite

/-- Binary32 multiplication: the exact product, rounded. -/
def Binary32.mul : Binary32 → Binary32 → Binary32
  | Binary32.finite a, Binary32.finite b => Binary32.round (a * b)
  | _, _ => Binary32.nonfinite

/-- Binary32 negation, exact. -/
def Binary32.neg : Binary32 → Binary32
  | Binary32.finite a => Binary32.finite (-a)
  | Binary32.nonfinite => Binary32.nonfinite

instance : Add Binary32 := ⟨Binary32.add⟩
instance : Sub Binary32 := ⟨Binary32.sub⟩
instance : Mul Binary32 := ⟨Binary32.mul⟩
instance : Neg Binary32 := ⟨Binary32.neg⟩
instance : Zero Binary32 := ⟨Binary32.finite 0⟩
instance : One Binary32 := ⟨Binary32.finite 1⟩

/-- A decimal literal converted to `float`: the decimal number rounded to
binary32.  The initialisers of `kpLeft`, `kpTop` and `kpBottom` are `double`
literals, rounded to binary64 first; for these three numbers that gives the
same binary32 value. -/
instance : OfScientific Binary32 :=
  ⟨fun mantissa exponentSign decimalExponent =>
    Binary32.round (OfScientific.ofScientific mantissa exponentSign decimalExponent : ℚ)⟩

/-- Whether a binary32 value is a finite number. -/
def Binary32.isFinite : Binary32 → Bool
  | Binary32.finite _ => true
  | Binary32.nonfinite => false

/-- The number a finite binary32 value stands for (0 for the others). -/
def Binary32.toRat : Binary32 → ℚ
  | Binary32.finite q => q
  | Binary32.nonfinite => 0

/-- A `mat4` of binary32 entries as a matrix of the numbers they stand for;
defined when every entry is finite. -/
def Mat4.exact? (m : Mat4 Binary32) : Option (Mat4 ℚ) :=
  if ∀ c r : Fin 4, (m c r).isFinite = true then some (fun c r => (m c r).toRat) else none

/-! ## Keyboard input -/

/-- The step `delta` of `keyPress`: `deltaFine` when `fine` is set, else
`deltaCoarse`. -/
def keyDelta {F : Type} [OfScientific F] (fine : Bool) : F :=
  let deltaCoarse : F := 0.05
  let deltaFine : F := 0.001
  if fine then deltaFine else deltaCoarse

/-- The function `keyPress` (the console echo and the redisplay request are
not part of the state). -/
def keyPress {F : Type} [OfScientific F] [Add F] [Sub F] (key : Char) (s : State F) : State F :=
  let delta : F := keyDelta s.fine
  if key = 'q' ∨ key = 'Q' then { s with fine := !s.fine }
  else if key = 'a' then { s with kpLeft := s.kpLeft + delta }
  else if key = 'A' then { s with kpLeft := s.kpLeft - delta }
  else if key = 's' then { s with kpBottom := s.kpBottom + delta }
  else if key = 'S' then { s with kpBottom := s.kpBottom - delta }
  else if key = 'd' then { s with kpRight := s.kpRight + delta }
  else if key = 'D' then { s with kpRight := s.kpRight - delta }
  else if key = 'w' then { s with kpTop := s.kpTop + delta }
  else if key = 'W' then { s with kpTop := s.kpTop - delta }
  else s

/-- C++ `!x` on an `int`, converted back to `int`: 1 when `x` is 0, else 0. -/
def cNot (x : Int) : Int := if x = 0 then 1 else 0

/-- The function `keyRelease`: escape (27) leaves the main loop, space
toggles `viewmode`. -/
def keyRelease {F : Type} (key : Char) (s : State F) : State F :=
  if key = Char.ofNat 27 then { s with leftMainLoop := true }
  else if key = Char.ofNat 32 then { s with viewmode := cNot s.viewmode }
  else s

/-! ## Sensor start-up -/

/-- The Kinect API as `initKinect` sees it.  `NuiCreateSensorByIndex i p`
gives the result code and the pointer the call leaves in `kinect` when
`kinect` held `p` before the call (`none` is `NULL`, `some n` points to
sensor object `n`). -/
structure SensorApi where
  sensorCountHr : HRESULT
  sensorCount : Int
  NuiCreateSensorByIndex : Nat → Option Nat → HRESULT × Option Nat
  NuiStatus : Nat → HRESULT
  NuiInitialize : Nat → HRESULT

/-- A call `initKinect` makes on a sensor object. -/
inductive SensorCall
  | NuiStatus (sensor : Nat)
  | Release (sensor : Nat)
  | NuiInitialize (sensor : Nat)
  | NuiImageStreamOpenColor (sensor : Nat)
  | NuiImageStreamOpenDepth (sensor : Nat)
  deriving DecidableEq, Repr

/-- How `initKinect` ends. -/
inductive InitOutcome
  | threw (what : String)
  | nullCall
  | returned (kinect : Nat)
  deriving DecidableEq, Repr

/-- The loop of lines 229-239.  `remaining` is `sensorCount - i`.  The
result is the value of `kinect` after the loop (`none` at the outer level:
a method was called through a null pointer) and the calls made. -/
def sensorLoop (api : SensorApi) :
    (remaining i : Nat) → (kinect : Option Nat) → List SensorCall →
      Option (Option Nat) × List SensorCall
  | 0, _, kinect, calls => (some kinect, calls)
  | remaining + 1, i, kinect, calls =>
    let r := api.NuiCreateSensorByIndex i kinect
    if FAILED r.1 then sensorLoop api remaining (i + 1) r.2 calls
    else
      match r.2 with
      | none => (none, calls)
      | some p =>
        if api.NuiStatus p = S_OK then (some (some p), calls ++ [SensorCall.NuiStatus p])
        else
          sensorLoop api remaining (i + 1) (some p)
            (calls ++ [SensorCall.NuiStatus p, SensorCall.Release p])

/-- The function `initKinect`, started with the global `kinect` as given
(its static initialiser is `NULL`): how it ends and the calls it made on
sensor objects, in order. -/
def initKinect (api : SensorApi) (kinect : Option Nat) : InitOutcome × List SensorCall :=
  if FAILED api.sensorCountHr then (InitOutcome.threw "No connected Kinects!", [])
  else
    match sensorLoop api api.sensorCount.toNat 0 kinect [] with
    | (none, calls) => (InitOutcome.nullCall, calls)
    | (some none, calls) => (InitOutcome.threw "Could not connect to Kinect!", calls)
    | (some (some p), calls) =>
      if !SUCCEEDED (api.NuiInitialize p) then
        (InitOutcome.threw "Failed to open Kinect streams!", calls ++ [SensorCall.NuiInitialize p])
      else
        (InitOutcome.returned p,
          calls ++ [SensorCall.NuiInitialize p, SensorCall.NuiImageStreamOpenColor p,
            SensorCall.NuiImageStreamOpenDepth p])

/-! ## Sample inputs -/

/-- A sensor API with one device: the sensor object is created, but its
status is the failure code `E_FAIL` (0x80004005), not `S_OK`. -/
def oneUnreadySensor : SensorApi where
  sensorCountHr := S_OK
  sensorCount := 1
  NuiCreateSensorByIndex := fun i _ => (S_OK, some i)
  NuiStatus := fun _ => -2147467259
  NuiInitialize := fun _ => S_OK

/-- A tick on which the sensor has both frames ready: every colour byte is
7 and every depth sample is 1000. -/
def readyTick : SensorTick where
  color := { hr := S_OK, Pitch := 2560, pBits := fun _ => 7 }
  depth := { hr := S_OK, hrTexture := S_OK, nearMode := false, Pitch := 2560,
             pBits := fun _ => ⟨0, 1000⟩ }

/-- A tick on which the sensor has no frame ready (`E_NUI_FRAME_NO_DATA`,
0x83010001). -/
def notReadyTick : SensorTick where
  color := { hr := -2097086463, Pitch := 0, pBits := fun _ => 0 }
  depth := { hr := -2097086463, hrTexture := S_OK, nearMode := false, Pitch := 0,
             pBits := fun _ => ⟨0, 0⟩ }

/-- A tick on which the frames are handed out but report pitch 0. -/
def zeroPitchTick : SensorTick where
  color := { hr := S_OK, Pitch := 0, pBits := fun _ => 7 }
  depth := { hr := S_OK, hrTexture := S_OK, nearMode := false, Pitch := 0,
             pBits := fun _ => ⟨0, 1000⟩ }

/-- The state when `main` enters the main loop, over the rationals. -/
def startState : State ℚ := initTextures (initState staticInit)

/-- The state when `main` enters the main loop, with `float` as binary32. -/
def startState32 : State Binary32 := initTextures (initState staticInit)

/-- The start state after two key-downs of `A`. -/
def leftMovedState32 : State Binary32 := keyPress 'A' (keyPress 'A' startState32)

/-- The start state with the calibration bounds of the specification's
scenario: the binary32 values of -0.008, 0.933, 0.969 and 0.095. -/
def scenarioState32 : State Binary32 :=
  { startState32 with kpLeft := -0.008, kpRight := 0.933, kpTop := 0.969, kpBottom := 0.095 }

/-- The invariant on the frame buffers: they have the sizes `initTextures`
allocated. -/
def BuffersSized {F : Type} (s : State F) : Prop :=
  s.colorData.length = texWidth * texHeight * 4 ∧ s.depthData.length = texWidth * texHeight

/-- The bytes a depth frame normalizes to: entry `k` is the conversion of
sample `k`. -/
@[irreducible]
def normalizedDepth (c : NuiImageCamera) (frame : DepthFrame) : List Nat :=
  (List.range (texWidth * texHeight)).map
    (fun k => depthToByte (minDepthOf c frame.nearMode) (maxDepthOf c frame.nearMode)
      (frame.pBits k).depth)

end KinectSandbox

namespace KinectSandbox

/-! ## Lemmas on the machine arithmetic -/

theorem toGLubyte_lt (x : Int) : toGLubyte x < 256 := by
  unfold toGLubyte
  omega

theorem toGLubyte_cRem (x : Int) : toGLubyte (cRem x 256) = toGLubyte x := by
  unfold toGLubyte cRem
  have h : (Int.tmod x 256) % 256 = x % 256 := by
    have h1 := Int.tmod_add_tdiv x 256
    omega
  rw [h]

theorem depthToByte_eq (d : Nat) (minD maxD : Int) :
    depthToByte minD maxD d =
      (if minD ≤ (d : Int) ∧ (d : Int) ≤ maxD then (((d : Int) - 32) % 256).toNat else 0) := by
  unfold depthToByte
  by_cases h : minD ≤ (d : Int) ∧ (d : Int) ≤ maxD
  · rw [if_pos h, if_pos h, toGLubyte_cRem]
    rfl
  · rw [if_neg h, if_neg h]
    rfl

/-! ## The per-sample conversion (C1, C9) -/

/-- C1. For every depth sample `d` (in particular every 16-bit one,
0..65535) and all integer bounds `minD`, `maxD`, the byte the per-sample
conversion of `kinectGetDepth` stores is the non-negative remainder of
`d - 32` modulo 256 when `minD ≤ d ≤ maxD` (also for `d < 32`, where
`d - 32` is negative), and 0 otherwise; it is always below 256.  Sample
1000 in range [800, 2000] is stored as 200, sample 100 as 0. -/
theorem depthToByte_spec :
    (∀ (d : Nat) (minD maxD : Int),
        depthToByte minD maxD d =
            (if minD ≤ (d : Int) ∧ (d : Int) ≤ maxD then (((d : Int) - 32) % 256).toNat else 0)
          ∧ depthToByte minD maxD d < 256)
      ∧ depthToByte 800 2000 1000 = 200
      ∧ depthToByte 800 2000 100 = 0 :=
  ⟨fun d minD maxD => ⟨depthToByte_eq d minD maxD, toGLubyte_lt _⟩, by decide, by decide⟩

/-- C9, as stated, fails: sample 1000 lies in [800, 2000] and its low eight
bits are 232, but the byte stored is 200. -/
theorem depthToByte_ne_low_byte :
    (800 : Int) ≤ 1000 ∧ (1000 : Int) ≤ 2000 ∧ 1000 % 256 = 232
      ∧ depthToByte 800 2000 1000 = 200
      ∧ depthToByte 800 2000 1000 ≠ 1000 % 256 := by
  decide

/-- C9, amended. For every depth sample `d` within [`minD`, `maxD`], the
byte stored is the low eight bits of `d - 32` in two's complement, that is
`(d + 224) mod 256`: adding 32 to it gives the low eight bits of `d` again,
modulo 256. -/
theorem depthToByte_low_byte_shifted (d : Nat) (minD maxD : Int)
    (hmin : minD ≤ (d : Int)) (hmax : (d : Int) ≤ maxD) :
    depthToByte minD maxD d = (d + 224) % 256
      ∧ (depthToByte minD maxD d + 32) % 256 = d % 256 := by
  have h := depthToByte_eq d minD maxD
  rw [if_pos ⟨hmin, hmax⟩] at h
  rw [h]
  omega

/-- An instance of the amended C9: sample 1000 in [800, 2000] is stored as
200, and 200 + 32 = 232 is the low byte of 1000. -/
theorem depthToByte_low_byte_shifted_witness :
    depthToByte 800 2000 1000 = (1000 + 224) % 256
      ∧ (depthToByte 800 2000 1000 + 32) % 256 = 1000 % 256 :=
  depthToByte_low_byte_shifted 1000 800 2000 (by decide) (by decide)

/-! ## Binary32 rounding -/

theorem roundHalfEven_sub_le (q : ℚ) : |(roundHalfEven q : ℚ) - q| ≤ 1 / 2 := by
  have h1 := Int.floor_le q
  have h2 := Int.lt_floor_add_one q
  unfold roundHalfEven
  simp only []
  rw [abs_le]
  split_ifs <;> constructor <;> push_cast <;> linarith

theorem roundHalfEven_eq_of_lt (q : ℚ) (m : ℤ) (h : |q - m| < 1 / 2) : roundHalfEven q = m := by
  rw [abs_lt] at h
  unfold roundHalfEven
  simp only []
  by_cases hm : (m : ℚ) ≤ q
  · have hf : ⌊q⌋ = m := by
      rw [Int.floor_eq_iff]
      constructor <;> linarith
    rw [hf, if_pos (by linarith)]
  · have hf : ⌊q⌋ = m - 1 := by
      rw [Int.floor_eq_iff]
      push_cast
      constructor <;> linarith
    rw [hf]
    push_cast
    rw [if_neg (by linarith), if_pos (by linarith)]
    ring

theorem roundBinary_sub_le (q : ℚ) :
    |roundBinary 24 (-149) q - q| ≤ max (|q| / 2 ^ 24) (1 / 2 ^ 150) := by
  unfold roundBinary
  by_cases hq : q = 0
  · rw [if_pos hq, hq]
    simp
  · rw [if_neg hq]
    simp only []
    have hpos : 0 < |q| := abs_pos.mpr hq
    generalize he : max (Int.log 2 |q| - (((24 : Nat) : Int) - 1)) (-149) = e
    have h2e : (0 : ℚ) < 2 ^ e := zpow_pos (by norm_num) e
    have herr := roundHalfEven_sub_le (q / 2 ^ e)
    have hbound : |(roundHalfEven (q / 2 ^ e) : ℚ) * 2 ^ e - q| ≤ 2 ^ e / 2 := by
      have e1 : (roundHalfEven (q / 2 ^ e) : ℚ) * 2 ^ e - q
          = ((roundHalfEven (q / 2 ^ e) : ℚ) - q / 2 ^ e) * 2 ^ e := by
        field_simp
      rw [e1, abs_mul, abs_of_pos h2e]
      calc |(roundHalfEven (q / 2 ^ e) : ℚ) - q / 2 ^ e| * 2 ^ e
          ≤ 1 / 2 * 2 ^ e := mul_le_mul_of_nonneg_right herr h2e.le
        _ = 2 ^ e / 2 := by ring
    refine hbound.trans ?_
    rcases max_choice (Int.log 2 |q| - (((24 : Nat) : Int) - 1)) (-149) with hc | hc
    · rw [hc] at he
      apply le_max_of_le_left
      have hlog := Int.zpow_log_le_self (b := 2) (r := |q|) (by norm_num) hpos
      have e2 : (2 : ℚ) ^ e = 2 ^ (Int.log 2 |q|) / 2 ^ 23 := by
        rw [← he]
        have : Int.log 2 |q| - (((24 : Nat) : Int) - 1) = Int.log 2 |q| - 23 := by norm_num
        rw [this, zpow_sub₀ (by norm_num)]
        norm_num
      rw [e2]
      push_cast at hlog
      have : (2 : ℚ) ^ (Int.log 2 |q|) / 2 ^ 23 / 2 = 2 ^ (Int.log 2 |q|) / 2 ^ 24 := by ring
      rw [this]
      exact div_le_div_of_nonneg_right hlog (by positivity)
    · rw [hc] at he
      apply le_max_of_le_right
      rw [← he]
      have : (2 : ℚ) ^ (-149 : ℤ) = 1 / 2 ^ 149 := by
        rw [zpow_neg, one_div]
        norm_cast
      rw [this]
      apply le_of_eq
      ring

theorem roundHalfEven_eq_of_tie (q : ℚ) (m : ℤ) (h : q - m = 1 / 2 ∨ q - m = -(1 / 2))
    (heven : m % 2 = 0) : roundHalfEven q = m := by
  unfold roundHalfEven
  simp only []
  rcases h with h | h
  · have hf : ⌊q⌋ = m := by
      rw [Int.floor_eq_iff]
      constructor <;> linarith
    rw [hf, if_neg (by linarith), if_neg (by linarith), if_pos heven]
  · have hf : ⌊q⌋ = m - 1 := by
      rw [Int.floor_eq_iff]
      push_cast
      constructor <;> linarith
    rw [hf]
    push_cast
    rw [if_neg (by linarith), if_neg (by linarith), if_neg (by omega)]
    ring

theorem roundBinary_eq_gen (p : Nat) (emin : Int) (q : ℚ) (k : Nat) (m : ℤ) (hp : 1 ≤ p)
    (hk : emin ≤ -(k : Int)) (hlo : 2 ^ (p - 1) ≤ |q| * 2 ^ k) (hhi : |q| * 2 ^ k < 2 ^ p)
    (hm : roundHalfEven (q * 2 ^ k) = m) : roundBinary p emin q = m / 2 ^ k := by
  have h2k : (0 : ℚ) < 2 ^ k := by positivity
  have hpos : 0 < |q| := by
    by_contra h
    have h0 : |q| = 0 := le_antisymm (not_lt.mp h) (abs_nonneg q)
    rw [h0, zero_mul] at hlo
    have : (0 : ℚ) < 2 ^ (p - 1) := by positivity
    linarith
  have hq : q ≠ 0 := abs_pos.mp hpos
  have hlog : Int.log 2 |q| = (p : Int) - 1 - k := by
    apply le_antisymm
    · have h1 : Int.log 2 |q| < (p : Int) - k := by
        rw [← Int.lt_zpow_iff_log_lt (by norm_num) hpos]
        rw [zpow_sub₀ (by norm_num), lt_div_iff₀ (by positivity)]
        exact_mod_cast hhi
      omega
    · rw [← Int.zpow_le_iff_le_log (by norm_num) hpos]
      have e1 : ((p : Int) - 1 - k) = ((p - 1 : Nat) : Int) - (k : Int) := by omega
      rw [e1, zpow_sub₀ (by norm_num), div_le_iff₀ (by positivity)]
      exact_mod_cast hlo
  unfold roundBinary
  rw [if_neg hq]
  simp only []
  have he : max (Int.log 2 |q| - ((p : Int) - 1)) emin = -(k : Int) := by
    rw [hlog]
    have : (p : Int) - 1 - k - ((p : Int) - 1) = -(k : Int) := by ring
    rw [this]
    exact max_eq_left hk
  rw [he]
  have e2 : (2 : ℚ) ^ (-(k : Int)) = 1 / 2 ^ k := by
    rw [zpow_neg, one_div, zpow_natCast]
  rw [e2]
  have e3 : q / (1 / 2 ^ k) = q * 2 ^ k := by
    field_simp
  rw [e3, hm]
  ring

theorem roundBinary_eq (p : Nat) (emin : Int) (q : ℚ) (k : Nat) (m : ℤ) (hp : 1 ≤ p)
    (hk : emin ≤ -(k : Int)) (hlo : 2 ^ (p - 1) ≤ |q| * 2 ^ k) (hhi : |q| * 2 ^ k < 2 ^ p)
    (hm : |q * 2 ^ k - m| < 1 / 2) : roundBinary p emin q = m / 2 ^ k :=
  roundBinary_eq_gen p emin q k m hp hk hlo hhi (roundHalfEven_eq_of_lt _ m hm)

theorem Binary32.round_eq_gen (q : ℚ) (k : Nat) (m : ℤ) (hk : k ≤ 149)
    (hlo : 2 ^ 23 ≤ |q| * 2 ^ k) (hhi : |q| * 2 ^ k < 2 ^ 24)
    (hm : roundHalfEven (q * 2 ^ k) = m) : Binary32.round q = Binary32.finite (m / 2 ^ k) := by
  have hv := roundBinary_eq_gen 24 (-149) q k m (by norm_num) (by omega) (by simpa using hlo)
    hhi hm
  unfold Binary32.round
  simp only []
  rw [hv, if_pos]
  have h2k : (1 : ℚ) ≤ 2 ^ k := one_le_pow₀ (by norm_num)
  have herr := roundHalfEven_sub_le (q * 2 ^ k)
  rw [hm] at herr
  have hm1 : |(m : ℚ)| < 2 ^ 24 + 1 := by
    have h1 : |(m : ℚ)| ≤ |(m : ℚ) - q * 2 ^ k| + |q * 2 ^ k| := by
      have := abs_add ((m : ℚ) - q * 2 ^ k) (q * 2 ^ k)
      simpa using this
    have h2 : |q * 2 ^ k| = |q| * 2 ^ k := by
      rw [abs_mul, abs_of_pos (by positivity : (0 : ℚ) < 2 ^ k)]
    rw [h2] at h1
    linarith
  rw [abs_div, abs_of_pos (by positivity : (0 : ℚ) < 2 ^ k)]
  calc |(m : ℚ)| / 2 ^ k ≤ |(m : ℚ)| := div_le_self (abs_nonneg _) h2k
    _ < 2 ^ 24 + 1 := hm1
    _ < 2 ^ 128 := by norm_num

theorem Binary32.round_eq (q : ℚ) (k : Nat) (m : ℤ) (hk : k ≤ 149)
    (hlo : 2 ^ 23 ≤ |q| * 2 ^ k) (hhi : |q| * 2 ^ k < 2 ^ 24)
    (hm : |q * 2 ^ k - m| < 1 / 2) : Binary32.round q = Binary32.finite (m / 2 ^ k) :=
  Binary32.round_eq_gen q k m hk hlo hhi (roundHalfEven_eq_of_lt _ m hm)

theorem Binary32.round_eq_tie (q : ℚ) (k : Nat) (m : ℤ) (hk : k ≤ 149)
    (hlo : 2 ^ 23 ≤ |q| * 2 ^ k) (hhi : |q| * 2 ^ k < 2 ^ 24)
    (hm : q * 2 ^ k - m = 1 / 2 ∨ q * 2 ^ k - m = -(1 / 2)) (heven : m % 2 = 0) :
    Binary32.round q = Binary32.finite (m / 2 ^ k) :=
  Binary32.round_eq_gen q k m hk hlo hhi (roundHalfEven_eq_of_tie _ m hm heven)

theorem roundHalfEven_intCast (n : ℤ) : roundHalfEven (n : ℚ) = n :=
  roundHalfEven_eq_of_lt _ n (by simp)

theorem roundBinary_zero (p : Nat) (emin : Int) : roundBinary p emin 0 = 0 := by
  simp [roundBinary]

theorem roundBinary_of_int (p : Nat) (emin : Int) (v : ℚ) (M : ℤ)
    (h : v / 2 ^ (max (Int.log 2 |v| - ((p : Int) - 1)) emin) = M) :
    roundBinary p emin v = v := by
  by_cases hv : v = 0
  · rw [hv, roundBinary_zero]
  · unfold roundBinary
    rw [if_neg hv]
    simp only []
    rw [h, roundHalfEven_intCast, ← h]
    have : (2 : ℚ) ^ (max (Int.log 2 |v| - ((p : Int) - 1)) emin) ≠ 0 :=
      zpow_ne_zero _ (by norm_num)
    field_simp

theorem roundBinary_idem (p : Nat) (emin : Int) (q : ℚ) (hp : 1 ≤ p) :
    roundBinary p emin (roundBinary p emin q) = roundBinary p emin q := by
  by_cases hq : q = 0
  · rw [hq, roundBinary_zero, roundBinary_zero]
  have hpos : 0 < |q| := abs_pos.mpr hq
  obtain ⟨e, he⟩ : ∃ e, e = max (Int.log 2 |q| - ((p : Int) - 1)) emin := ⟨_, rfl⟩
  obtain ⟨m, hm⟩ : ∃ m, m = roundHalfEven (q / 2 ^ e) := ⟨_, rfl⟩
  have hv : roundBinary p emin q = (m : ℚ) * 2 ^ e := by
    unfold roundBinary
    rw [if_neg hq]
    simp only []
    rw [← he, ← hm]
  rw [hv]
  have h2e : (0 : ℚ) < 2 ^ e := zpow_pos (by norm_num) e
  have he1 : Int.log 2 |q| - ((p : Int) - 1) ≤ e := by rw [he]; exact le_max_left _ _
  have he2 : emin ≤ e := by rw [he]; exact le_max_right _ _
  -- the scaled input is below `2 ^ p`
  have hx : |q / 2 ^ e| < 2 ^ p := by
    rw [abs_div, abs_of_pos h2e, div_lt_iff₀ h2e]
    have h1 := Int.lt_zpow_succ_log_self (b := 2) (by norm_num) |q|
    have h2 : ((2 : ℕ) : ℚ) ^ (Int.log 2 |q| + 1) ≤ 2 ^ p * 2 ^ e := by
      have e3 : (2 : ℚ) ^ p * 2 ^ e = 2 ^ ((p : Int) + e) := by
        rw [zpow_add₀ (by norm_num), zpow_natCast]
      rw [e3]
      push_cast
      exact zpow_le_zpow_right₀ (by norm_num) (by omega)
    exact lt_of_lt_of_le h1 h2
  have hmx := roundHalfEven_sub_le (q / 2 ^ e)
  rw [← hm] at hmx
  have hmle : |m| ≤ 2 ^ p := by
    by_contra hcon
    have h1 : (2 : ℤ) ^ p + 1 ≤ |m| := by omega
    have h2 : ((2 : ℚ) ^ p + 1) ≤ |(m : ℚ)| := by
      have := (Int.cast_le (R := ℚ)).mpr h1
      push_cast at this
      exact this
    have h3 : |(m : ℚ)| ≤ |(m : ℚ) - q / 2 ^ e| + |q / 2 ^ e| := by
      have := abs_add ((m : ℚ) - q / 2 ^ e) (q / 2 ^ e)
      simpa using this
    linarith
  have habsv : |(m : ℚ) * 2 ^ e| = |(m : ℚ)| * 2 ^ e := by
    rw [abs_mul, abs_of_pos h2e]
  rcases lt_or_eq_of_le hmle with hlt | heq
  · -- the significand has at most `p` bits: the exponent does not grow
    by_cases hm0 : m = 0
    · rw [hm0]
      simp [roundBinary_zero]
    have hmpos : 0 < |(m : ℚ)| := abs_pos.mpr (by exact_mod_cast hm0)
    have hvpos : 0 < |(m : ℚ) * 2 ^ e| := by rw [habsv]; positivity
    have hlt' : |(m : ℚ)| < 2 ^ p := by
      have := (Int.cast_lt (R := ℚ)).mpr hlt
      push_cast at this
      exact this
    have hlogv : Int.log 2 |(m : ℚ) * 2 ^ e| < (p : Int) + e := by
      rw [← Int.lt_zpow_iff_log_lt (by norm_num) hvpos, habsv]
      push_cast
      rw [zpow_add₀ (by norm_num), zpow_natCast]
      exact mul_lt_mul_of_pos_right hlt' h2e
    obtain ⟨ev, hev⟩ : ∃ ev, ev = max (Int.log 2 |(m : ℚ) * 2 ^ e| - ((p : Int) - 1)) emin :=
      ⟨_, rfl⟩
    have hle : ev ≤ e := by
      rw [hev]
      exact max_le (by omega) he2
    apply roundBinary_of_int p emin _ (m * 2 ^ (e - ev).toNat)
    rw [← hev]
    have e4 : (2 : ℚ) ^ e = 2 ^ ev * 2 ^ (e - ev).toNat := by
      rw [← zpow_natCast, ← zpow_add₀ (by norm_num)]
      congr 1
      omega
    rw [e4]
    have : (2 : ℚ) ^ ev ≠ 0 := zpow_ne_zero _ (by norm_num)
    push_cast
    field_simp
    ring
  · -- the significand was rounded up to `2 ^ p`: the exponent grows by one
    have hmq : |(m : ℚ)| = 2 ^ p := by
      have := congrArg (Int.cast (R := ℚ)) heq
      push_cast at this
      exact this
    have habs2 : |(m : ℚ) * 2 ^ e| = ((2 : ℕ) : ℚ) ^ ((p : Int) + e) := by
      rw [habsv, hmq]
      push_cast
      rw [zpow_add₀ (by norm_num), zpow_natCast]
    have hlogv : Int.log 2 |(m : ℚ) * 2 ^ e| = (p : Int) + e := by
      rw [habs2, Int.log_zpow (by norm_num)]
    have hev : max (Int.log 2 |(m : ℚ) * 2 ^ e| - ((p : Int) - 1)) emin = e + 1 := by
      rw [hlogv]
      have : (p : Int) + e - ((p : Int) - 1) = e + 1 := by ring
      rw [this]
      exact max_eq_left (by omega)
    have hdvd : (2 : ℤ) ∣ m := by
      have h2p : (2 : ℤ) ∣ 2 ^ p := dvd_pow_self 2 (by omega)
      rw [← heq] at h2p
      exact (dvd_abs 2 m).mp h2p
    obtain ⟨M, hM⟩ := hdvd
    apply roundBinary_of_int p emin _ M
    rw [hev, hM, zpow_add₀ (by norm_num)]
    push_cast
    field_simp
    ring

theorem binary32_literal (mantissa : Nat) (exponentSign : Bool) (decimalExponent : Nat) :
    (OfScientific.ofScientific mantissa exponentSign decimalExponent : Binary32)
      = Binary32.round (OfScientific.ofScientific mantissa exponentSign decimalExponent : ℚ) :=
  rfl

theorem Binary32.round_zero : Binary32.round 0 = Binary32.finite 0 := by
  unfold Binary32.round
  simp [roundBinary_zero]

theorem Binary32.round_value (q v : ℚ) (h : Binary32.round q = Binary32.finite v) :
    v = roundBinary 24 (-149) q := by
  unfold Binary32.round at h
  simp only [] at h
  split at h
  · injection h with h
    exact h.symm
  · cases h

theorem Binary32.round_rep (q v : ℚ) (h : Binary32.round q = Binary32.finite v) :
    Binary32.round v = Binary32.finite v := by
  have hv := Binary32.round_value q v h
  unfold Binary32.round at h ⊢
  simp only [] at h ⊢
  rw [hv, roundBinary_idem 24 (-149) q (by norm_num)]
  exact h.trans (by rw [hv])

theorem Binary32.round_err (q v : ℚ) (h : Binary32.round q = Binary32.finite v) :
    |v - q| ≤ max (|q| / 2 ^ 24) (1 / 2 ^ 150) := by
  rw [Binary32.round_value q v h]
  exact roundBinary_sub_le q

theorem Binary32.zero_def : (0 : Binary32) = Binary32.finite 0 := rfl

theorem Binary32.one_def : (1 : Binary32) = Binary32.finite 1 := rfl

theorem Binary32.finite_add (a b : ℚ) :
    Binary32.finite a + Binary32.finite b = Binary32.round (a + b) := rfl

theorem Binary32.finite_sub (a b : ℚ) :
    Binary32.finite a - Binary32.finite b = Binary32.round (a - b) := rfl

theorem Binary32.finite_mul (a b : ℚ) :
    Binary32.finite a * Binary32.finite b = Binary32.round (a * b) := rfl

theorem Binary32.neg_finite (a : ℚ) : -Binary32.finite a = Binary32.finite (-a) := rfl

theorem Binary32.round_one : Binary32.round 1 = Binary32.finite 1 := by
  have h := Binary32.round_eq 1 23 (2 ^ 23) (by norm_num) (by norm_num) (by norm_num)
    (by norm_num)
  rw [h]
  norm_num

theorem Binary32.round_add_zero (q : ℚ) :
    Binary32.round q + Binary32.finite 0 = Binary32.round q := by
  cases h : Binary32.round q with
  | finite v =>
    rw [Binary32.finite_add, add_zero]
    exact Binary32.round_rep q v h
  | nonfinite => rfl

theorem Binary32.zero_add_round (q : ℚ) :
    Binary32.finite 0 + Binary32.round q = Binary32.round q := by
  cases h : Binary32.round q with
  | finite v =>
    rw [Binary32.finite_add, zero_add]
    exact Binary32.round_rep q v h
  | nonfinite => rfl

/-! ## Keyboard input (C5, C6) -/

theorem cNot_cNot (x : Int) (h : x = 0 ∨ x = 1) : cNot (cNot x) = x := by
  rcases h with h | h <;> subst h <;> decide

theorem kinectGetColor_viewmode {F : Type} (frame : ColorFrame) (s s1 : State F)
    (h : kinectGetColor frame s = some s1) : s1.viewmode = s.viewmode := by
  unfold kinectGetColor at h
  split at h
  · cases h; rfl
  · split at h
    · cases h
    · cases h; rfl

theorem kinectGetDepth_viewmode {F : Type} (c : NuiImageCamera) (frame : DepthFrame)
    (s s1 : State F) (h : kinectGetDepth c frame s = some s1) : s1.viewmode = s.viewmode := by
  unfold kinectGetDepth at h
  split at h
  · cases h; rfl
  · split at h
    · cases h; rfl
    · split at h
      · cases h
      · cases h; rfl

/-- C5. In either view mode (0 = colour, 1 = depth; `initState` sets 1),
two space-bar key-ups in a row give back the state they started from, so
`viewmode` has its original value and `display` does what it did before:
it fetches from the same frame source (`kinectGetColor` for 0,
`kinectGetDepth` for 1) and binds the same texture (`colorTex` for 0,
`depthTex` for 1).  One key-up alone does change the mode. -/
theorem keyRelease_space_twice {F : Type} [Zero F] [One F] [Sub F] (c : NuiImageCamera)
    (sensor : SensorTick) (s : State F) (h : s.viewmode = 0 ∨ s.viewmode = 1) :
    (keyRelease ' ' (keyRelease ' ' s)).viewmode = s.viewmode
      ∧ keyRelease ' ' (keyRelease ' ' s) = s
      ∧ (keyRelease ' ' s).viewmode ≠ s.viewmode
      ∧ display c sensor (keyRelease ' ' (keyRelease ' ' s)) = display c sensor s
      ∧ (∀ s1 d, display c sensor s = some (s1, d) →
          (s.viewmode = 0 → kinectGetColor sensor.color s = some s1
            ∧ d.texture = Texture.colorTex)
          ∧ (s.viewmode = 1 → kinectGetDepth c sensor.depth s = some s1
            ∧ d.texture = Texture.depthTex))
      ∧ (initState s).viewmode = 1 := by
  have h2 : keyRelease ' ' (keyRelease ' ' s) = s := by
    have e : (' ' : Char) = Char.ofNat 32 := by decide
    have ne : ¬ (Char.ofNat 32 = Char.ofNat 27) := by decide
    rw [e]
    simp only [keyRelease, if_neg ne, if_true]
    rw [cNot_cNot _ h]
  refine ⟨by rw [h2], h2, ?_, by rw [h2], ?_, rfl⟩
  · have e : (' ' : Char) = Char.ofNat 32 := by decide
    have ne : ¬ (Char.ofNat 32 = Char.ofNat 27) := by decide
    rw [e]
    simp only [keyRelease, if_neg ne, if_true]
    rcases h with h | h <;> rw [h] <;> decide
  · intro s1 d hd
    unfold display at hd
    constructor
    · intro h0
      rw [if_pos h0] at hd
      cases hc : kinectGetColor sensor.color s with
      | none => rw [hc] at hd; cases hd
      | some s1c =>
        rw [hc] at hd
        have hv := kinectGetColor_viewmode _ _ _ hc
        simp only [Option.some.injEq, Prod.mk.injEq] at hd
        obtain ⟨h1, h3⟩ := hd
        subst h1
        refine ⟨rfl, ?_⟩
        rw [← h3]
        simp [hv, h0]
    · intro h1
      have hne : ¬ s.viewmode = 0 := by rw [h1]; decide
      rw [if_neg hne] at hd
      cases hc : kinectGetDepth c sensor.depth s with
      | none => rw [hc] at hd; cases hd
      | some s1c =>
        rw [hc] at hd
        have hv := kinectGetDepth_viewmode _ _ _ _ hc
        simp only [Option.some.injEq, Prod.mk.injEq] at hd
        obtain ⟨h2, h3⟩ := hd
        subst h2
        refine ⟨rfl, ?_⟩
        rw [← h3]
        simp [hv, hne]

/-- C6. In every state and with either precision, key-down of `a`, `s`,
`d`, `w` adds the current step (`0.05` coarse, `0.001` fine) to `kpLeft`,
`kpBottom`, `kpRight`, `kpTop` respectively and `A`, `S`, `D`, `W` subtracts
it from the same bound; the result is stored as computed, unclamped, and
nothing else in the state changes.  `q` and `Q` flip the precision flag and
nothing else.  Any other key leaves the state as it is. -/
theorem keyPress_spec {F : Type} [OfScientific F] [Add F] [Sub F] (s : State F) :
    (keyDelta true : F) = 0.001 ∧ (keyDelta false : F) = 0.05
      ∧ keyPress 'a' s = { s with kpLeft := s.kpLeft + keyDelta s.fine }
      ∧ keyPress 'A' s = { s with kpLeft := s.kpLeft - keyDelta s.fine }
      ∧ keyPress 's' s = { s with kpBottom := s.kpBottom + keyDelta s.fine }
      ∧ keyPress 'S' s = { s with kpBottom := s.kpBottom - keyDelta s.fine }
      ∧ keyPress 'd' s = { s with kpRight := s.kpRight + keyDelta s.fine }
      ∧ keyPress 'D' s = { s with kpRight := s.kpRight - keyDelta s.fine }
      ∧ keyPress 'w' s = { s with kpTop := s.kpTop + keyDelta s.fine }
      ∧ keyPress 'W' s = { s with kpTop := s.kpTop - keyDelta s.fine }
      ∧ keyPress 'q' s = { s with fine := !s.fine }
      ∧ keyPress 'Q' s = { s with fine := !s.fine }
      ∧ (∀ key : Char, key ∉ ['q', 'Q', 'a', 'A', 's', 'S', 'd', 'D', 'w', 'W'] →
          keyPress key s = s) := by
  refine ⟨rfl, rfl, ?_, ?_, ?_, ?_, ?_, ?_, ?_, ?_, ?_, ?_, ?_⟩
  · simp [keyPress]
  · simp [keyPress]
  · simp [keyPress]
  · simp [keyPress]
  · simp [keyPress]
  · simp [keyPress]
  · simp [keyPress]
  · simp [keyPress]
  · simp [keyPress]
  · simp [keyPress]
  · intro key hk
    simp only [List.mem_cons, List.mem_singleton, List.not_mem_nil, not_or, or_false] at hk
    obtain ⟨h1, h2, h3, h4, h5, h6, h7, h8, h9, h10⟩ := hk
    simp [keyPress, h1, h2, h3, h4, h5, h6, h7, h8, h9, h10]

/-! ## The copy loops -/

theorem store_eq_some (buf : List Nat) (i v : Nat) (h : i < buf.length) :
    store buf i v = some (buf.set i v) := by
  unfold store
  rw [if_pos h]

theorem depthLoop_spec (minD maxD : Int) (pBits : Nat → NUI_DEPTH_IMAGE_PIXEL) :
    ∀ (n run i : Nat) (buf : List Nat), i + n ≤ buf.length →
      ∃ res, depthLoop minD maxD pBits n run i buf = some res
        ∧ res.length = buf.length
        ∧ ∀ j, res[j]? =
            if i ≤ j ∧ j < i + n then some (depthToByte minD maxD (pBits (run + (j - i))).depth)
            else buf[j]? := by
  intro n
  induction n with
  | zero =>
    intro run i buf _
    refine ⟨buf, rfl, rfl, ?_⟩
    intro j
    rw [if_neg (by omega)]
  | succ n ih =>
    intro run i buf h
    have hi : i < buf.length := by omega
    obtain ⟨res, hres, hlen, hget⟩ :=
      ih (run + 1) (i + 1) (buf.set i (depthToByte minD maxD (pBits run).depth))
        (by rw [List.length_set]; omega)
    refine ⟨res, ?_, ?_, ?_⟩
    · simp only [depthLoop, store_eq_some _ _ _ hi]
      exact hres
    · rw [hlen, List.length_set]
    · intro j
      rw [hget j]
      by_cases h1 : i + 1 ≤ j ∧ j < i + 1 + n
      · rw [if_pos h1, if_pos (by omega)]
        have e : run + 1 + (j - (i + 1)) = run + (j - i) := by omega
        rw [e]
      · rw [if_neg h1]
        by_cases h2 : i = j
        · subst h2
          rw [if_pos (by omega), List.getElem?_set_self hi]
          simp
        · rw [if_neg (by omega), List.getElem?_set_ne h2]

theorem colorCopyLoop_spec (pBits : Nat → Nat) :
    ∀ (n k : Nat) (buf : List Nat), k + n ≤ buf.length →
      ∃ res, colorCopyLoop pBits n k buf = some res
        ∧ res.length = buf.length
        ∧ ∀ j, res[j]? = if k ≤ j ∧ j < k + n then some (pBits j) else buf[j]? := by
  intro n
  induction n with
  | zero =>
    intro k buf _
    refine ⟨buf, rfl, rfl, ?_⟩
    intro j
    rw [if_neg (by omega)]
  | succ n ih =>
    intro k buf h
    have hk : k < buf.length := by omega
    obtain ⟨res, hres, hlen, hget⟩ :=
      ih (k + 1) (buf.set k (pBits k)) (by rw [List.length_set]; omega)
    refine ⟨res, ?_, ?_, ?_⟩
    · simp only [colorCopyLoop, store_eq_some _ _ _ hk]
      exact hres
    · rw [hlen, List.length_set]
    · intro j
      rw [hget j]
      by_cases h1 : k + 1 ≤ j ∧ j < k + 1 + n
      · rw [if_pos h1, if_pos (by omega)]
      · rw [if_neg h1]
        by_cases h2 : k = j
        · subst h2
          rw [if_pos (by omega), List.getElem?_set_self hk]
        · rw [if_neg (by omega), List.getElem?_set_ne h2]

theorem depthLoop_short (minD maxD : Int) (pBits : Nat → NUI_DEPTH_IMAGE_PIXEL) :
    ∀ (n run i : Nat) (buf : List Nat), i ≤ buf.length → buf.length < i + n →
      depthLoop minD maxD pBits n run i buf = none := by
  intro n
  induction n with
  | zero =>
    intro run i buf h0 h
    omega
  | succ n ih =>
    intro run i buf h0 h
    by_cases hi : i < buf.length
    · simp only [depthLoop, store_eq_some _ _ _ hi]
      exact ih _ _ _ (by rw [List.length_set]; omega) (by rw [List.length_set]; omega)
    · simp only [depthLoop, store, if_neg hi]

theorem colorCopyLoop_short (pBits : Nat → Nat) :
    ∀ (n k : Nat) (buf : List Nat), k ≤ buf.length → buf.length < k + n →
      colorCopyLoop pBits n k buf = none := by
  intro n
  induction n with
  | zero =>
    intro k buf h0 h
    omega
  | succ n ih =>
    intro k buf h0 h
    by_cases hk : k < buf.length
    · simp only [colorCopyLoop, store_eq_some _ _ _ hk]
      exact ih _ _ (by rw [List.length_set]; omega) (by rw [List.length_set]; omega)
    · simp only [colorCopyLoop, store, if_neg hk]

theorem depthNormalize_isSome_iff (c : NuiImageCamera) (frame : DepthFrame) (buf : List Nat)
    (hp : frame.Pitch ≠ 0) :
    (depthNormalize c frame.nearMode frame buf).isSome = true
      ↔ texWidth * texHeight ≤ buf.length := by
  unfold depthNormalize
  rw [if_pos hp]
  simp only []
  constructor
  · intro h
    by_contra hlt
    rw [depthLoop_short _ _ _ _ _ _ buf (by omega) (by omega)] at h
    cases h
  · intro h
    obtain ⟨res, hres, _, _⟩ :=
      depthLoop_spec (minDepthOf c frame.nearMode) (maxDepthOf c frame.nearMode) frame.pBits
        (texWidth * texHeight) 0 0 buf (by omega)
    rw [hres]
    rfl

theorem colorCopy_isSome_iff (frame : ColorFrame) (buf : List Nat) (hp : frame.Pitch ≠ 0) :
    (colorCopy frame buf).isSome = true ↔ texWidth * texHeight * 4 ≤ buf.length := by
  unfold colorCopy
  rw [if_pos hp]
  constructor
  · intro h
    by_contra hlt
    rw [colorCopyLoop_short _ _ _ buf (by omega) (by omega)] at h
    cases h
  · intro h
    obtain ⟨res, hres, _, _⟩ :=
      colorCopyLoop_spec frame.pBits (texWidth * texHeight * 4) 0 buf (by omega)
    rw [hres]
    rfl

theorem normalizedDepth_length (c : NuiImageCamera) (frame : DepthFrame) :
    (normalizedDepth c frame).length = texWidth * texHeight := by
  unfold normalizedDepth
  rw [List.length_map, List.length_range]

theorem depthNormalize_ready (c : NuiImageCamera) (frame : DepthFrame) (buf : List Nat)
    (hp : frame.Pitch ≠ 0) (hlen : buf.length = texWidth * texHeight) :
    depthNormalize c frame.nearMode frame buf = some (normalizedDepth c frame) := by
  obtain ⟨res, hres, hl, hget⟩ :=
    depthLoop_spec (minDepthOf c frame.nearMode) (maxDepthOf c frame.nearMode) frame.pBits
      (texWidth * texHeight) 0 0 buf (by omega)
  have e : res = normalizedDepth c frame := by
    apply List.ext_getElem?
    intro j
    rw [hget j]
    unfold normalizedDepth
    rw [List.getElem?_map]
    by_cases hj : j < texWidth * texHeight
    · rw [if_pos (by omega), List.getElem?_range hj]
      simp
    · rw [if_neg (by omega), List.getElem?_eq_none (by omega),
        List.getElem?_eq_none (by rw [List.length_range]; omega)]
      rfl
  unfold depthNormalize
  rw [if_pos hp]
  simp only []
  rw [hres, e]

theorem depthNormalize_zero_pitch (c : NuiImageCamera) (frame : DepthFrame) (buf : List Nat)
    (hp : frame.Pitch = 0) : depthNormalize c frame.nearMode frame buf = some buf := by
  unfold depthNormalize
  rw [if_neg (by simp [hp])]

theorem colorCopy_zero_pitch (frame : ColorFrame) (buf : List Nat) (hp : frame.Pitch = 0) :
    colorCopy frame buf = some buf := by
  unfold colorCopy
  rw [if_neg (by simp [hp])]

theorem colorCopy_sized (frame : ColorFrame) (buf : List Nat)
    (hlen : buf.length = texWidth * texHeight * 4) :
    ∃ res, colorCopy frame buf = some res ∧ res.length = buf.length := by
  unfold colorCopy
  by_cases hp : frame.Pitch = 0
  · rw [if_neg (by simp [hp])]
    exact ⟨buf, rfl, rfl⟩
  · rw [if_pos hp]
    obtain ⟨res, hres, hl, _⟩ :=
      colorCopyLoop_spec frame.pBits (texWidth * texHeight * 4) 0 buf (by omega)
    exact ⟨res, hres, hl⟩

theorem depthNormalize_sized (c : NuiImageCamera) (frame : DepthFrame) (buf : List Nat)
    (hlen : buf.length = texWidth * texHeight) :
    ∃ res, depthNormalize c frame.nearMode frame buf = some res ∧ res.length = buf.length := by
  by_cases hp : frame.Pitch = 0
  · exact ⟨buf, depthNormalize_zero_pitch c frame buf hp, rfl⟩
  · exact ⟨_, depthNormalize_ready c frame buf hp hlen, by
      rw [normalizedDepth_length, hlen]⟩

/-! ## Skipped frames (C3) -/

theorem kinectGetDepth_zero_pitch {F : Type} (c : NuiImageCamera) (frame : DepthFrame)
    (s : State F) (hp : frame.Pitch = 0) :
    ∃ s1, kinectGetDepth c frame s = some s1 ∧ s1.depthData = s.depthData
      ∧ s1.colorData = s.colorData := by
  unfold kinectGetDepth
  split
  · exact ⟨s, rfl, rfl, rfl⟩
  · split
    · exact ⟨s, rfl, rfl, rfl⟩
    · rw [depthNormalize_zero_pitch c frame _ hp]
      exact ⟨_, rfl, rfl, rfl⟩

theorem kinectGetColor_zero_pitch {F : Type} (frame : ColorFrame) (s : State F)
    (hp : frame.Pitch = 0) :
    ∃ s1, kinectGetColor frame s = some s1 ∧ s1.colorData = s.colorData
      ∧ s1.depthData = s.depthData := by
  unfold kinectGetColor
  split
  · exact ⟨s, rfl, rfl, rfl⟩
  · rw [colorCopy_zero_pitch frame _ hp]
    exact ⟨_, rfl, rfl, rfl⟩

theorem kinectGetDepth_not_ready {F : Type} (c : NuiImageCamera) (frame : DepthFrame)
    (s : State F) (h : FAILED frame.hr = true) : kinectGetDepth c frame s = some s := by
  unfold kinectGetDepth
  rw [if_pos h]

theorem kinectGetColor_not_ready {F : Type} (frame : ColorFrame) (s : State F)
    (h : frame.hr < 0) : kinectGetColor frame s = some s := by
  unfold kinectGetColor
  rw [if_pos h]

/-- C3. Whatever the frame buffers hold: when the get-next-frame call fails
(no frame ready), `kinectGetDepth` and `kinectGetColor` return with the
whole state as it was; when the locked frame reports pitch 0 they store
nothing, so `depthData` and `colorData` keep every byte.  Hence a `display`
tick whose selected source is not ready or has pitch 0 draws from the
same buffers as the tick before. -/
theorem skipped_frame_keeps_buffers {F : Type} [Zero F] [One F] [Sub F] (c : NuiImageCamera)
    (sensor : SensorTick) (s : State F) :
    (FAILED sensor.depth.hr = true → kinectGetDepth c sensor.depth s = some s)
      ∧ (sensor.depth.Pitch = 0 →
          ∃ s1, kinectGetDepth c sensor.depth s = some s1 ∧ s1.depthData = s.depthData
            ∧ s1.colorData = s.colorData)
      ∧ (sensor.color.hr < 0 → kinectGetColor sensor.color s = some s)
      ∧ (sensor.color.Pitch = 0 →
          ∃ s1, kinectGetColor sensor.color s = some s1 ∧ s1.colorData = s.colorData
            ∧ s1.depthData = s.depthData)
      ∧ ((s.viewmode = 0 → sensor.color.hr < 0 ∨ sensor.color.Pitch = 0) →
          (s.viewmode ≠ 0 → FAILED sensor.depth.hr = true ∨ sensor.depth.Pitch = 0) →
          ∃ s1 d, display c sensor s = some (s1, d) ∧ s1.colorData = s.colorData
            ∧ s1.depthData = s.depthData) := by
  refine ⟨kinectGetDepth_not_ready c _ s, kinectGetDepth_zero_pitch c _ s,
    kinectGetColor_not_ready _ s, kinectGetColor_zero_pitch _ s, ?_⟩
  intro hc hd
  unfold display
  by_cases hv : s.viewmode = 0
  · rw [if_pos hv]
    have key : ∃ s1, kinectGetColor sensor.color s = some s1 ∧ s1.colorData = s.colorData
        ∧ s1.depthData = s.depthData := by
      rcases hc hv with h | h
      · exact ⟨s, kinectGetColor_not_ready _ s h, rfl, rfl⟩
      · exact kinectGetColor_zero_pitch _ s h
    obtain ⟨s1, h1, h2, h3⟩ := key
    rw [h1]
    exact ⟨s1, _, rfl, h2, h3⟩
  · rw [if_neg hv]
    have key : ∃ s1, kinectGetDepth c sensor.depth s = some s1 ∧ s1.depthData = s.depthData
        ∧ s1.colorData = s.colorData := by
      rcases hd hv with h | h
      · exact ⟨s, kinectGetDepth_not_ready c _ s h, rfl, rfl⟩
      · exact kinectGetDepth_zero_pitch c _ s h
    obtain ⟨s1, h1, h2, h3⟩ := key
    rw [h1]
    exact ⟨s1, _, rfl, h3, h2⟩

/-- C3 at the start state: a tick with no frame ready leaves the state as it
is under both getters, and a tick with pitch 0 leaves the depth buffer as
it is. -/
theorem skipped_frame_keeps_buffers_witness :
    FAILED notReadyTick.depth.hr = true
      ∧ kinectGetDepth sdkConstants notReadyTick.depth startState = some startState
      ∧ kinectGetColor notReadyTick.color startState = some startState
      ∧ ∃ s1, kinectGetDepth sdkConstants zeroPitchTick.depth startState = some s1
          ∧ s1.depthData = startState.depthData ∧ s1.colorData = startState.colorData :=
  ⟨by decide,
    (skipped_frame_keeps_buffers sdkConstants notReadyTick startState).1 (by decide),
    (skipped_frame_keeps_buffers sdkConstants notReadyTick startState).2.2.1 (by decide),
    (skipped_frame_keeps_buffers sdkConstants zeroPitchTick startState).2.1 rfl⟩

/-! ## The depth normalizer run twice (C8) -/

theorem kinectGetDepth_ready {F : Type} (c : NuiImageCamera) (frame : DepthFrame) (s : State F)
    (hr : FAILED frame.hr = false) (hrTexture : FAILED frame.hrTexture = false)
    (hp : frame.Pitch ≠ 0) (hlen : s.depthData.length = texWidth * texHeight) :
    kinectGetDepth c frame s =
      some { s with
        depthData := normalizedDepth c frame
        depthTexImage := some ⟨PixelFormat.GL_RED, normalizedDepth c frame⟩ } := by
  unfold kinectGetDepth
  rw [hr, hrTexture, depthNormalize_ready c frame _ hp hlen]
  simp

/-- C8. For every depth frame with non-zero pitch, every near-mode flag and
every prior content of `depthData` (at its allocated size): the normalizer
of `kinectGetDepth` writes a buffer that is a function of the frame alone,
so it does not depend on what the buffer held, and a second run on the same
frame leaves `depthData`, and the whole state, as the first run left it. -/
theorem depth_normalizer_idempotent {F : Type} (c : NuiImageCamera) (frame : DepthFrame)
    (s : State F) (hp : frame.Pitch ≠ 0)
    (hlen : s.depthData.length = texWidth * texHeight) :
    (∃ d1, depthNormalize c frame.nearMode frame s.depthData = some d1
        ∧ depthNormalize c frame.nearMode frame d1 = some d1
        ∧ ∀ prior : List Nat, prior.length = texWidth * texHeight →
            depthNormalize c frame.nearMode frame prior = some d1)
      ∧ (FAILED frame.hr = false → FAILED frame.hrTexture = false →
          ∃ s1, kinectGetDepth c frame s = some s1
            ∧ kinectGetDepth c frame s1 = some s1
            ∧ s1.depthData = normalizedDepth c frame) := by
  constructor
  · exact ⟨normalizedDepth c frame, depthNormalize_ready c frame _ hp hlen,
      depthNormalize_ready c frame _ hp (normalizedDepth_length c frame),
      fun prior hprior => depthNormalize_ready c frame prior hp hprior⟩
  · intro hr hrTexture
    have h1 := kinectGetDepth_ready c frame s hr hrTexture hp hlen
    have h2 := kinectGetDepth_ready c frame
      { s with
        depthData := normalizedDepth c frame
        depthTexImage := some ⟨PixelFormat.GL_RED, normalizedDepth c frame⟩ }
      hr hrTexture hp (normalizedDepth_length c frame)
    exact ⟨_, h1, h2, Eq.refl (normalizedDepth c frame)⟩

/-- C8 at the start state with a ready frame: the second run of
`kinectGetDepth` returns the state the first run returned. -/
theorem depth_normalizer_idempotent_witness :
    readyTick.depth.Pitch ≠ 0
      ∧ startState.depthData.length = texWidth * texHeight
      ∧ ∃ s1, kinectGetDepth sdkConstants readyTick.depth startState = some s1
          ∧ kinectGetDepth sdkConstants readyTick.depth s1 = some s1
          ∧ s1.depthData = normalizedDepth sdkConstants readyTick.depth :=
  ⟨by decide, List.length_replicate _ _,
    (depth_normalizer_idempotent sdkConstants readyTick.depth startState (by decide)
      (List.length_replicate _ _)).2 rfl rfl⟩

/-! ## Witnesses for the keyboard theorems -/

/-- C5 at the start state (view mode 1): two space-bar key-ups give the
start state back, and one gives a different view mode. -/
theorem keyRelease_space_twice_witness :
    (startState.viewmode = 0 ∨ startState.viewmode = 1)
      ∧ keyRelease ' ' (keyRelease ' ' startState) = startState
      ∧ (keyRelease ' ' startState).viewmode ≠ startState.viewmode :=
  ⟨Or.inr rfl,
    (keyRelease_space_twice sdkConstants readyTick startState (Or.inr rfl)).2.1,
    (keyRelease_space_twice sdkConstants readyTick startState (Or.inr rfl)).2.2.1⟩

/-- C6 at the start state: the key `x` is none of the ten bound keys and
leaves the state as it is. -/
theorem keyPress_spec_witness :
    'x' ∉ ['q', 'Q', 'a', 'A', 's', 'S', 'd', 'D', 'w', 'W']
      ∧ keyPress 'x' startState = startState :=
  ⟨by decide, (keyPress_spec startState).2.2.2.2.2.2.2.2.2.2.2.2 'x' (by decide)⟩

/-! ## Buffer sizes (C10) -/

theorem initTextures_sized {F : Type} (s : State F) : BuffersSized (initTextures s) :=
  ⟨List.length_replicate _ _, List.length_replicate _ _⟩

theorem kinectGetColor_sized {F : Type} (frame : ColorFrame) (s : State F)
    (h : BuffersSized s) : ∃ s1, kinectGetColor frame s = some s1 ∧ BuffersSized s1 := by
  unfold kinectGetColor
  split
  · exact ⟨s, rfl, h⟩
  · obtain ⟨res, hres, hl⟩ := colorCopy_sized frame s.colorData h.1
    rw [hres]
    exact ⟨_, rfl, hl.trans h.1, h.2⟩

theorem kinectGetDepth_sized {F : Type} (c : NuiImageCamera) (frame : DepthFrame) (s : State F)
    (h : BuffersSized s) : ∃ s1, kinectGetDepth c frame s = some s1 ∧ BuffersSized s1 := by
  unfold kinectGetDepth
  split
  · exact ⟨s, rfl, h⟩
  · split
    · exact ⟨s, rfl, h⟩
    · obtain ⟨res, hres, hl⟩ := depthNormalize_sized c frame s.depthData h.2
      rw [hres]
      exact ⟨_, rfl, h.1, hl.trans h.2⟩

theorem display_sized {F : Type} [Zero F] [One F] [Sub F] (c : NuiImageCamera)
    (sensor : SensorTick) (s : State F) (h : BuffersSized s) :
    ∃ s1 d, display c sensor s = some (s1, d) ∧ BuffersSized s1 := by
  unfold display
  by_cases hv : s.viewmode = 0
  · rw [if_pos hv]
    obtain ⟨s1, h1, h2⟩ := kinectGetColor_sized sensor.color s h
    rw [h1]
    exact ⟨s1, _, rfl, h2⟩
  · rw [if_neg hv]
    obtain ⟨s1, h1, h2⟩ := kinectGetDepth_sized c sensor.depth s h
    rw [h1]
    exact ⟨s1, _, rfl, h2⟩

theorem keyPress_buffers {F : Type} [OfScientific F] [Add F] [Sub F] (key : Char)
    (s : State F) :
    (keyPress key s).colorData = s.colorData ∧ (keyPress key s).depthData = s.depthData := by
  unfold keyPress
  simp only []
  repeat' split
  all_goals exact ⟨rfl, rfl⟩

theorem keyRelease_buffers {F : Type} (key : Char) (s : State F) :
    (keyRelease key s).colorData = s.colorData ∧ (keyRelease key s).depthData = s.depthData := by
  unfold keyRelease
  repeat' split
  all_goals exact ⟨rfl, rfl⟩

/-- C10. After `initTextures`, `colorData` has 640*480*4 bytes and
`depthData` has 640*480.  From any state with these sizes, a `display`
tick (either view mode, any sensor answer: ready, not ready, pitch 0)
completes without a store outside a buffer, so every index the depth
normalizer and the colour copy write is inside its vector, and leaves
both sizes as they were; so do `kinectGetColor` and `kinectGetDepth` on
their own, `keyPress` and `keyRelease`.  The sizes are what the loops
need: on a frame with non-zero pitch the normalizer stores at the 640*480
indices from 0 and the copy at the 640*480*4 indices from 0, and each
completes exactly when its buffer is at least that long. -/
theorem buffers_sized_invariant {F : Type} [Zero F] [One F] [Sub F] [OfScientific F] [Add F]
    (c : NuiImageCamera) (s0 s : State F) (h : BuffersSized s) :
    ((initTextures s0).colorData.length = 640 * 480 * 4
        ∧ (initTextures s0).depthData.length = 640 * 480
        ∧ BuffersSized (initTextures s0))
      ∧ (∀ sensor : SensorTick, ∃ s1 d, display c sensor s = some (s1, d) ∧ BuffersSized s1)
      ∧ (∀ frame : ColorFrame, ∃ s1, kinectGetColor frame s = some s1 ∧ BuffersSized s1)
      ∧ (∀ frame : DepthFrame, ∃ s1, kinectGetDepth c frame s = some s1 ∧ BuffersSized s1)
      ∧ (∀ key : Char, BuffersSized (keyPress key s))
      ∧ (∀ key : Char, BuffersSized (keyRelease key s))
      ∧ (∀ (frame : DepthFrame) (buf : List Nat), frame.Pitch ≠ 0 →
          ((depthNormalize c frame.nearMode frame buf).isSome = true
            ↔ texWidth * texHeight ≤ buf.length))
      ∧ (∀ (frame : ColorFrame) (buf : List Nat), frame.Pitch ≠ 0 →
          ((colorCopy frame buf).isSome = true ↔ texWidth * texHeight * 4 ≤ buf.length)) := by
  refine ⟨⟨(initTextures_sized s0).1, (initTextures_sized s0).2, initTextures_sized s0⟩,
    fun sensor => display_sized c sensor s h,
    fun frame => kinectGetColor_sized frame s h,
    fun frame => kinectGetDepth_sized c frame s h, ?_, ?_,
    fun frame buf hp => depthNormalize_isSome_iff c frame buf hp,
    fun frame buf hp => colorCopy_isSome_iff frame buf hp⟩
  · intro key
    unfold BuffersSized
    rw [(keyPress_buffers key s).1, (keyPress_buffers key s).2]
    exact h
  · intro key
    unfold BuffersSized
    rw [(keyRelease_buffers key s).1, (keyRelease_buffers key s).2]
    exact h

/-- C10 at the start state: the buffers have the allocated sizes, and a
tick with both frames ready completes with the sizes kept. -/
theorem buffers_sized_invariant_witness :
    BuffersSized startState
      ∧ ∃ s1 d, display sdkConstants readyTick startState = some (s1, d) ∧ BuffersSized s1 :=
  ⟨initTextures_sized _,
    (buffers_sized_invariant sdkConstants startState startState
      (initTextures_sized _)).2.1 readyTick⟩

/-! ## Sensor start-up (C4) -/

theorem initKinect_count_failed (api : SensorApi) (kinect : Option Nat)
    (h : FAILED api.sensorCountHr = true) :
    initKinect api kinect = (InitOutcome.threw "No connected Kinects!", []) := by
  unfold initKinect
  rw [if_pos h]

theorem initKinect_zero_devices (api : SensorApi) (h : FAILED api.sensorCountHr = false)
    (h0 : api.sensorCount ≤ 0) :
    initKinect api none = (InitOutcome.threw "Could not connect to Kinect!", []) := by
  have e : api.sensorCount.toNat = 0 := by omega
  unfold initKinect
  rw [h, e]
  rfl

theorem initKinect_released_sensor_kept (api : SensorApi) (p : Nat)
    (hcount : FAILED api.sensorCountHr = false) (h1 : api.sensorCount = 1)
    (hcreate : api.NuiCreateSensorByIndex 0 none = (S_OK, some p))
    (hstatus : api.NuiStatus p ≠ S_OK) :
    SensorCall.NuiInitialize p ∈ (initKinect api none).2
      ∧ (initKinect api none).1 ≠ InitOutcome.threw "Could not connect to Kinect!" := by
  have e : api.sensorCount.toNat = 1 := by omega
  have hf : FAILED S_OK = false := by decide
  unfold initKinect
  rw [hcount, e]
  simp only [sensorLoop, hcreate, hf, if_neg hstatus]
  by_cases hi : SUCCEEDED (api.NuiInitialize p) = true
  · simp [hi]
  · simp [hi]

/-- C4 fails on the code: with one device whose sensor object is created
but whose status is not `S_OK`, `initKinect` releases the sensor, leaves
the released pointer in `kinect`, passes the `kinect == NULL` test and goes
on to `NuiInitialize` and both `NuiImageStreamOpen` calls instead of
raising an error. -/
theorem initKinect_unready_sensor_initialized :
    oneUnreadySensor.NuiStatus 0 ≠ S_OK
      ∧ initKinect oneUnreadySensor none =
        (InitOutcome.returned 0,
          [SensorCall.NuiStatus 0, SensorCall.Release 0, SensorCall.NuiInitialize 0,
            SensorCall.NuiImageStreamOpenColor 0, SensorCall.NuiImageStreamOpenDepth 0]) :=
  ⟨by decide, rfl⟩

/-! ## The calibration matrix in binary32 -/

theorem kinectGetColor_bounds {F : Type} (frame : ColorFrame) (s s1 : State F)
    (h : kinectGetColor frame s = some s1) :
    s1.kpLeft = s.kpLeft ∧ s1.kpRight = s.kpRight ∧ s1.kpTop = s.kpTop
      ∧ s1.kpBottom = s.kpBottom := by
  unfold kinectGetColor at h
  split at h
  · cases h; exact ⟨rfl, rfl, rfl, rfl⟩
  · split at h
    · cases h
    · cases h; exact ⟨rfl, rfl, rfl, rfl⟩

theorem kinectGetDepth_bounds {F : Type} (c : NuiImageCamera) (frame : DepthFrame)
    (s s1 : State F) (h : kinectGetDepth c frame s = some s1) :
    s1.kpLeft = s.kpLeft ∧ s1.kpRight = s.kpRight ∧ s1.kpTop = s.kpTop
      ∧ s1.kpBottom = s.kpBottom := by
  unfold kinectGetDepth at h
  split at h
  · cases h; exact ⟨rfl, rfl, rfl, rfl⟩
  · split at h
    · cases h; exact ⟨rfl, rfl, rfl, rfl⟩
    · split at h
      · cases h
      · cases h; exact ⟨rfl, rfl, rfl, rfl⟩

theorem display_xform {F : Type} [Zero F] [One F] [Sub F] (c : NuiImageCamera)
    (sensor : SensorTick) (s s1 : State F) (d : DrawCall F)
    (h : display c sensor s = some (s1, d)) :
    d.xform = displayXform s.kpLeft s.kpRight s.kpTop s.kpBottom := by
  unfold display at h
  by_cases hv : s.viewmode = 0
  · rw [if_pos hv] at h
    cases hc : kinectGetColor sensor.color s with
    | none => rw [hc] at h; cases h
    | some s2 =>
      rw [hc] at h
      obtain ⟨h1, h2, h3, h4⟩ := kinectGetColor_bounds _ _ _ hc
      cases h
      simp only [h1, h2, h3, h4]
  · rw [if_neg hv] at h
    cases hc : kinectGetDepth c sensor.depth s with
    | none => rw [hc] at h; cases h
    | some s2 =>
      rw [hc] at h
      obtain ⟨h1, h2, h3, h4⟩ := kinectGetDepth_bounds _ _ _ _ hc
      cases h
      simp only [h1, h2, h3, h4]

/-! ## Binary32 values of the calibration bounds -/

theorem binary32_kpRight :
    (0.932997 : Binary32) = Binary32.finite (15653092 / 2 ^ 24) := by
  rw [binary32_literal]
  have h := Binary32.round_eq (0.932997) 24 15653092 (by norm_num)
    (by rw [abs_of_pos (by norm_num)]; norm_num)
    (by rw [abs_of_pos (by norm_num)]; norm_num)
    (by rw [abs_lt]; constructor <;> norm_num)
  exact h.trans (by norm_num)

theorem binary32_kpLeft_abs :
    (0.00800092 : Binary32) = Binary32.finite (8590922 / 2 ^ 30) := by
  rw [binary32_literal]
  have h := Binary32.round_eq (0.00800092) 30 8590922 (by norm_num)
    (by rw [abs_of_pos (by norm_num)]; norm_num)
    (by rw [abs_of_pos (by norm_num)]; norm_num)
    (by rw [abs_lt]; constructor <;> norm_num)
  exact h.trans (by norm_num)

theorem binary32_kpTop :
    (0.968996 : Binary32) = Binary32.finite (16257055 / 2 ^ 24) := by
  rw [binary32_literal]
  have h := Binary32.round_eq (0.968996) 24 16257055 (by norm_num)
    (by rw [abs_of_pos (by norm_num)]; norm_num)
    (by rw [abs_of_pos (by norm_num)]; norm_num)
    (by rw [abs_lt]; constructor <;> norm_num)
  exact h.trans (by norm_num)

theorem binary32_kpBottom :
    (0.0950001 : Binary32) = Binary32.finite (12750698 / 2 ^ 27) := by
  rw [binary32_literal]
  have h := Binary32.round_eq (0.0950001) 27 12750698 (by norm_num)
    (by rw [abs_of_pos (by norm_num)]; norm_num)
    (by rw [abs_of_pos (by norm_num)]; norm_num)
    (by rw [abs_lt]; constructor <;> norm_num)
  exact h.trans (by norm_num)

theorem binary32_deltaCoarse :
    (0.05 : Binary32) = Binary32.finite (13421773 / 2 ^ 28) := by
  rw [binary32_literal]
  have h := Binary32.round_eq (0.05) 28 13421773 (by norm_num)
    (by rw [abs_of_pos (by norm_num)]; norm_num)
    (by rw [abs_of_pos (by norm_num)]; norm_num)
    (by rw [abs_lt]; constructor <;> norm_num)
  exact h.trans (by norm_num)

theorem binary32_half :
    (0.5 : Binary32) = Binary32.finite (1 / 2) := by
  rw [binary32_literal]
  have h := Binary32.round_eq (0.5) 24 8388608 (by norm_num)
    (by rw [abs_of_pos (by norm_num)]; norm_num)
    (by rw [abs_of_pos (by norm_num)]; norm_num)
    (by rw [abs_lt]; constructor <;> norm_num)
  exact h.trans (by norm_num)

theorem binary32_scenario_left_abs :
    (0.008 : Binary32) = Binary32.finite (8589935 / 2 ^ 30) := by
  rw [binary32_literal]
  have h := Binary32.round_eq (0.008) 30 8589935 (by norm_num)
    (by rw [abs_of_pos (by norm_num)]; norm_num)
    (by rw [abs_of_pos (by norm_num)]; norm_num)
    (by rw [abs_lt]; constructor <;> norm_num)
  exact h.trans (by norm_num)

theorem binary32_scenario_right :
    (0.933 : Binary32) = Binary32.finite (15653143 / 2 ^ 24) := by
  rw [binary32_literal]
  have h := Binary32.round_eq (0.933) 24 15653143 (by norm_num)
    (by rw [abs_of_pos (by norm_num)]; norm_num)
    (by rw [abs_of_pos (by norm_num)]; norm_num)
    (by rw [abs_lt]; constructor <;> norm_num)
  exact h.trans (by norm_num)

theorem binary32_scenario_top :
    (0.969 : Binary32) = Binary32.finite (16257122 / 2 ^ 24) := by
  rw [binary32_literal]
  have h := Binary32.round_eq (0.969) 24 16257122 (by norm_num)
    (by rw [abs_of_pos (by norm_num)]; norm_num)
    (by rw [abs_of_pos (by norm_num)]; norm_num)
    (by rw [abs_lt]; constructor <;> norm_num)
  exact h.trans (by norm_num)

theorem binary32_scenario_bottom :
    (0.095 : Binary32) = Binary32.finite (12750684 / 2 ^ 27) := by
  rw [binary32_literal]
  have h := Binary32.round_eq (0.095) 27 12750684 (by norm_num)
    (by rw [abs_of_pos (by norm_num)]; norm_num)
    (by rw [abs_of_pos (by norm_num)]; norm_num)
    (by rw [abs_lt]; constructor <;> norm_num)
  exact h.trans (by norm_num)

theorem binary32_rep_left :
    Binary32.round (-(8590922 / 2 ^ 30)) = Binary32.finite (-(8590922 / 2 ^ 30)) := by
  have h := Binary32.round_eq (-(8590922 / 2 ^ 30)) 30 (-8590922) (by norm_num)
    (by rw [abs_of_neg (by norm_num)]; norm_num)
    (by rw [abs_of_neg (by norm_num)]; norm_num)
    (by rw [abs_lt]; constructor <;> norm_num)
  exact h.trans (by norm_num)

theorem binary32_start_dx :
    Binary32.round (15653092 / 2 ^ 24 - -(8590922 / 2 ^ 30))
      = Binary32.finite (15787325 / 2 ^ 24) := by
  have h := Binary32.round_eq (15653092 / 2 ^ 24 - -(8590922 / 2 ^ 30)) 24 15787325 (by norm_num)
    (by rw [abs_of_pos (by norm_num)]; norm_num)
    (by rw [abs_of_pos (by norm_num)]; norm_num)
    (by rw [abs_lt]; constructor <;> norm_num)
  exact h.trans (by norm_num)

theorem binary32_start_dy :
    Binary32.round (16257055 / 2 ^ 24 - 12750698 / 2 ^ 27)
      = Binary32.finite (14663218 / 2 ^ 24) := by
  have h := Binary32.round_eq (16257055 / 2 ^ 24 - 12750698 / 2 ^ 27) 24 14663218 (by norm_num)
    (by rw [abs_of_pos (by norm_num)]; norm_num)
    (by rw [abs_of_pos (by norm_num)]; norm_num)
    (by rw [abs_lt]; constructor <;> norm_num)
  exact h.trans (by norm_num)

theorem binary32_start_half_dx :
    Binary32.round (15787325 / 2 ^ 24 * (1 / 2)) = Binary32.finite (15787325 / 2 ^ 25) := by
  have h := Binary32.round_eq (15787325 / 2 ^ 24 * (1 / 2)) 25 15787325 (by norm_num)
    (by rw [abs_of_pos (by norm_num)]; norm_num)
    (by rw [abs_of_pos (by norm_num)]; norm_num)
    (by rw [abs_lt]; constructor <;> norm_num)
  exact h.trans (by norm_num)

theorem binary32_start_mid_x :
    Binary32.round (15787325 / 2 ^ 25 + -(8590922 / 2 ^ 30))
      = Binary32.finite (15518859 / 2 ^ 25) := by
  have h := Binary32.round_eq (15787325 / 2 ^ 25 + -(8590922 / 2 ^ 30)) 25 15518859 (by norm_num)
    (by rw [abs_of_pos (by norm_num)]; norm_num)
    (by rw [abs_of_pos (by norm_num)]; norm_num)
    (by rw [abs_lt]; constructor <;> norm_num)
  exact h.trans (by norm_num)

theorem binary32_left_step1 :
    Binary32.round (-(8590922 / 2 ^ 30) - 13421773 / 2 ^ 28)
      = Binary32.finite (-(15569504 / 2 ^ 28)) := by
  have h := Binary32.round_eq_tie (-(8590922 / 2 ^ 30) - 13421773 / 2 ^ 28) 28 (-15569504) (by norm_num)
    (by rw [abs_of_neg (by norm_num)]; norm_num)
    (by rw [abs_of_neg (by norm_num)]; norm_num)
    (Or.inl (by norm_num)) (by decide)
  exact h.trans (by norm_num)

theorem binary32_left_step2 :
    Binary32.round (-(15569504 / 2 ^ 28) - 13421773 / 2 ^ 28)
      = Binary32.finite (-(14495638 / 2 ^ 27)) := by
  have h := Binary32.round_eq_tie (-(15569504 / 2 ^ 28) - 13421773 / 2 ^ 28) 27 (-14495638) (by norm_num)
    (by rw [abs_of_neg (by norm_num)]; norm_num)
    (by rw [abs_of_neg (by norm_num)]; norm_num)
    (Or.inr (by norm_num)) (by decide)
  exact h.trans (by norm_num)

theorem binary32_moved_dx :
    Binary32.round (15653092 / 2 ^ 24 - -(14495638 / 2 ^ 27))
      = Binary32.finite (8732523 / 2 ^ 23) := by
  have h := Binary32.round_eq (15653092 / 2 ^ 24 - -(14495638 / 2 ^ 27)) 23 8732523 (by norm_num)
    (by rw [abs_of_pos (by norm_num)]; norm_num)
    (by rw [abs_of_pos (by norm_num)]; norm_num)
    (by rw [abs_lt]; constructor <;> norm_num)
  exact h.trans (by norm_num)

theorem binary32_moved_corner_x :
    Binary32.round (8732523 / 2 ^ 23 + -(14495638 / 2 ^ 27))
      = Binary32.finite (15653091 / 2 ^ 24) := by
  have h := Binary32.round_eq (8732523 / 2 ^ 23 + -(14495638 / 2 ^ 27)) 24 15653091 (by norm_num)
    (by rw [abs_of_pos (by norm_num)]; norm_num)
    (by rw [abs_of_pos (by norm_num)]; norm_num)
    (by rw [abs_lt]; constructor <;> norm_num)
  exact h.trans (by norm_num)

theorem binary32_rep_scenario_left :
    Binary32.round (-(8589935 / 2 ^ 30)) = Binary32.finite (-(8589935 / 2 ^ 30)) := by
  have h := Binary32.round_eq (-(8589935 / 2 ^ 30)) 30 (-8589935) (by norm_num)
    (by rw [abs_of_neg (by norm_num)]; norm_num)
    (by rw [abs_of_neg (by norm_num)]; norm_num)
    (by rw [abs_lt]; constructor <;> norm_num)
  exact h.trans (by norm_num)

theorem binary32_scenario_dx :
    Binary32.round (15653143 / 2 ^ 24 - -(8589935 / 2 ^ 30))
      = Binary32.finite (15787361 / 2 ^ 24) := by
  have h := Binary32.round_eq (15653143 / 2 ^ 24 - -(8589935 / 2 ^ 30)) 24 15787361 (by norm_num)
    (by rw [abs_of_pos (by norm_num)]; norm_num)
    (by rw [abs_of_pos (by norm_num)]; norm_num)
    (by rw [abs_lt]; constructor <;> norm_num)
  exact h.trans (by norm_num)

theorem binary32_scenario_dy :
    Binary32.round (16257122 / 2 ^ 24 - 12750684 / 2 ^ 27)
      = Binary32.finite (14663286 / 2 ^ 24) := by
  have h := Binary32.round_eq_tie (16257122 / 2 ^ 24 - 12750684 / 2 ^ 27) 24 14663286 (by norm_num)
    (by rw [abs_of_pos (by norm_num)]; norm_num)
    (by rw [abs_of_pos (by norm_num)]; norm_num)
    (Or.inl (by norm_num)) (by decide)
  exact h.trans (by norm_num)

theorem binary32_scenario_half_dx :
    Binary32.round (15787361 / 2 ^ 24 * (1 / 2)) = Binary32.finite (15787361 / 2 ^ 25) := by
  have h := Binary32.round_eq (15787361 / 2 ^ 24 * (1 / 2)) 25 15787361 (by norm_num)
    (by rw [abs_of_pos (by norm_num)]; norm_num)
    (by rw [abs_of_pos (by norm_num)]; norm_num)
    (by rw [abs_lt]; constructor <;> norm_num)
  exact h.trans (by norm_num)

theorem binary32_scenario_half_dy :
    Binary32.round (14663286 / 2 ^ 24 * (1 / 2)) = Binary32.finite (14663286 / 2 ^ 25) := by
  have h := Binary32.round_eq (14663286 / 2 ^ 24 * (1 / 2)) 25 14663286 (by norm_num)
    (by rw [abs_of_pos (by norm_num)]; norm_num)
    (by rw [abs_of_pos (by norm_num)]; norm_num)
    (by rw [abs_lt]; constructor <;> norm_num)
  exact h.trans (by norm_num)

theorem binary32_scenario_mid_x :
    Binary32.round (15787361 / 2 ^ 25 + -(8589935 / 2 ^ 30))
      = Binary32.finite (15518926 / 2 ^ 25) := by
  have h := Binary32.round_eq (15787361 / 2 ^ 25 + -(8589935 / 2 ^ 30)) 25 15518926 (by norm_num)
    (by rw [abs_of_pos (by norm_num)]; norm_num)
    (by rw [abs_of_pos (by norm_num)]; norm_num)
    (by rw [abs_lt]; constructor <;> norm_num)
  exact h.trans (by norm_num)

theorem binary32_scenario_mid_y :
    Binary32.round (14663286 / 2 ^ 25 + 12750684 / 2 ^ 27)
      = Binary32.finite (8925478 / 2 ^ 24) := by
  have h := Binary32.round_eq_tie (14663286 / 2 ^ 25 + 12750684 / 2 ^ 27) 24 8925478 (by norm_num)
    (by rw [abs_of_pos (by norm_num)]; norm_num)
    (by rw [abs_of_pos (by norm_num)]; norm_num)
    (Or.inl (by norm_num)) (by decide)
  exact h.trans (by norm_num)

/-! ## Initialisers written as `double` literals -/

theorem binary32_kpLeft_via_double :
    Binary32.round (roundBinary 53 (-1074) 0.00800092) = Binary32.round 0.00800092 := by
  have h64 := roundBinary_eq 53 (-1074) 0.00800092 59 4612216362319507 (by norm_num) (by norm_num)
    (by rw [abs_of_pos (by norm_num)]; norm_num)
    (by rw [abs_of_pos (by norm_num)]; norm_num)
    (by rw [abs_lt]; constructor <;> norm_num)
  have h32 := Binary32.round_eq (((4612216362319507 : ℤ) : ℚ) / 2 ^ 59) 30 8590922 (by norm_num)
    (by rw [abs_of_pos (by norm_num)]; norm_num)
    (by rw [abs_of_pos (by norm_num)]; norm_num)
    (by rw [abs_lt]; constructor <;> norm_num)
  rw [h64, h32]
  exact ((binary32_literal _ _ _).symm.trans (binary32_kpLeft_abs.trans (by norm_num))).symm

theorem binary32_kpTop_via_double :
    Binary32.round (roundBinary 53 (-1074) 0.968996) = Binary32.round 0.968996 := by
  have h64 := roundBinary_eq 53 (-1074) 0.968996 53 8727940049047002 (by norm_num) (by norm_num)
    (by rw [abs_of_pos (by norm_num)]; norm_num)
    (by rw [abs_of_pos (by norm_num)]; norm_num)
    (by rw [abs_lt]; constructor <;> norm_num)
  have h32 := Binary32.round_eq (((8727940049047002 : ℤ) : ℚ) / 2 ^ 53) 24 16257055 (by norm_num)
    (by rw [abs_of_pos (by norm_num)]; norm_num)
    (by rw [abs_of_pos (by norm_num)]; norm_num)
    (by rw [abs_lt]; constructor <;> norm_num)
  rw [h64, h32]
  exact ((binary32_literal _ _ _).symm.trans (binary32_kpTop.trans (by norm_num))).symm

theorem binary32_kpBottom_via_double :
    Binary32.round (roundBinary 53 (-1074) 0.0950001) = Binary32.round 0.0950001 := by
  have h64 := roundBinary_eq 53 (-1074) 0.0950001 56 6845478639362558 (by norm_num) (by norm_num)
    (by rw [abs_of_pos (by norm_num)]; norm_num)
    (by rw [abs_of_pos (by norm_num)]; norm_num)
    (by rw [abs_lt]; constructor <;> norm_num)
  have h32 := Binary32.round_eq (((6845478639362558 : ℤ) : ℚ) / 2 ^ 56) 27 12750698 (by norm_num)
    (by rw [abs_of_pos (by norm_num)]; norm_num)
    (by rw [abs_of_pos (by norm_num)]; norm_num)
    (by rw [abs_lt]; constructor <;> norm_num)
  rw [h64, h32]
  exact ((binary32_literal _ _ _).symm.trans (binary32_kpBottom.trans (by norm_num))).symm

/-! ## The calibration matrix in binary32: images of points -/

theorem displayXform_entries {F : Type} [Zero F] [One F] [Sub F]
    (kpLeft kpRight kpTop kpBottom : F) :
    displayXform kpLeft kpRight kpTop kpBottom 0 0 = kpRight - kpLeft
      ∧ displayXform kpLeft kpRight kpTop kpBottom 3 0 = kpLeft
      ∧ displayXform kpLeft kpRight kpTop kpBottom 1 1 = kpTop - kpBottom
      ∧ displayXform kpLeft kpRight kpTop kpBottom 3 1 = kpBottom := by
  simp [displayXform, Mat4.assign]

theorem displayXform_exact (l r t b dx dy : ℚ)
    (hdx : Binary32.round (r - l) = Binary32.finite dx)
    (hdy : Binary32.round (t - b) = Binary32.finite dy) :
    ∃ M : Mat4 ℚ,
      (displayXform (Binary32.finite l) (Binary32.finite r) (Binary32.finite t)
          (Binary32.finite b)).exact? = some M
        ∧ ∀ u v : ℚ, M.mulVec ⟨u, v, 0, 1⟩ = ⟨dx * u + l, dy * v + b, 0, 1⟩ := by
  have hfin : ∀ c r1 : Fin 4,
      ((displayXform (Binary32.finite l) (Binary32.finite r) (Binary32.finite t)
        (Binary32.finite b)) c r1).isFinite = true := by
    intro c r1
    fin_cases c <;> fin_cases r1 <;>
      simp [displayXform, Mat4.assign, Mat4.diag1, Binary32.finite_sub, hdx, hdy,
        Binary32.isFinite, Binary32.zero_def, Binary32.one_def]
  refine ⟨_, by unfold Mat4.exact?; rw [if_pos hfin], ?_⟩
  intro u v
  simp [Mat4.mulVec, displayXform, Mat4.assign, Mat4.diag1, Binary32.finite_sub, hdx, hdy,
    Binary32.toRat, Binary32.zero_def, Binary32.one_def]

theorem displayXform_binary32 (l r t b dx dy u v : ℚ)
    (hl : Binary32.round l = Binary32.finite l) (hb : Binary32.round b = Binary32.finite b)
    (hdx : Binary32.round (r - l) = Binary32.finite dx)
    (hdy : Binary32.round (t - b) = Binary32.finite dy) :
    (displayXform (Binary32.finite l) (Binary32.finite r) (Binary32.finite t)
          (Binary32.finite b)).mulVec
        ⟨Binary32.finite u, Binary32.finite v, 0, 1⟩
      = ⟨Binary32.round (dx * u) + Binary32.finite l,
          Binary32.round (dy * v) + Binary32.finite b, 0, 1⟩ := by
  simp only [Mat4.mulVec, displayXform, Mat4.assign, Mat4.diag1, Binary32.zero_def,
    Binary32.one_def]
  simp [Binary32.finite_sub, hdx, hdy, Binary32.finite_mul, Binary32.round_zero,
    Binary32.round_add_zero, Binary32.zero_add_round, hl, hb, Binary32.finite_add,
    Binary32.round_one]

theorem displayXform_binary32_origin (l r t b dx dy : ℚ)
    (hl : Binary32.round l = Binary32.finite l) (hb : Binary32.round b = Binary32.finite b)
    (hdx : Binary32.round (r - l) = Binary32.finite dx)
    (hdy : Binary32.round (t - b) = Binary32.finite dy) :
    (displayXform (Binary32.finite l) (Binary32.finite r) (Binary32.finite t)
          (Binary32.finite b)).mulVec ⟨0, 0, 0, 1⟩
      = ⟨Binary32.finite l, Binary32.finite b, 0, 1⟩ := by
  have h := displayXform_binary32 l r t b dx dy 0 0 hl hb hdx hdy
  rw [mul_zero, mul_zero, Binary32.round_zero, Binary32.finite_add, Binary32.finite_add,
    zero_add, zero_add, hl, hb] at h
  exact h

theorem displayXform_binary32_corner (l r t b dx dy : ℚ)
    (hl : Binary32.round l = Binary32.finite l) (hb : Binary32.round b = Binary32.finite b)
    (hdx : Binary32.round (r - l) = Binary32.finite dx)
    (hdy : Binary32.round (t - b) = Binary32.finite dy) :
    (displayXform (Binary32.finite l) (Binary32.finite r) (Binary32.finite t)
          (Binary32.finite b)).mulVec ⟨1, 1, 0, 1⟩
      = ⟨Binary32.round (dx + l), Binary32.round (dy + b), 0, 1⟩ := by
  have h := displayXform_binary32 l r t b dx dy 1 1 hl hb hdx hdy
  rw [mul_one, mul_one, Binary32.round_rep _ _ hdx, Binary32.round_rep _ _ hdy,
    Binary32.finite_add, Binary32.finite_add] at h
  exact h

theorem displayXform_binary32_centre (l r t b dx dy : ℚ)
    (hl : Binary32.round l = Binary32.finite l) (hb : Binary32.round b = Binary32.finite b)
    (hdx : Binary32.round (r - l) = Binary32.finite dx)
    (hdy : Binary32.round (t - b) = Binary32.finite dy) :
    (displayXform (Binary32.finite l) (Binary32.finite r) (Binary32.finite t)
          (Binary32.finite b)).mulVec ⟨0.5, 0.5, 0, 1⟩
      = ⟨Binary32.round (dx * (1 / 2)) + Binary32.finite l,
          Binary32.round (dy * (1 / 2)) + Binary32.finite b, 0, 1⟩ := by
  rw [binary32_half]
  exact displayXform_binary32 l r t b dx dy (1 / 2) (1 / 2) hl hb hdx hdy

theorem corner_error (l r dx : ℚ) (hdx : Binary32.round (r - l) = Binary32.finite dx) :
    |dx + l - r| ≤ max (|r - l| / 2 ^ 24) (1 / 2 ^ 150) := by
  have h := Binary32.round_err _ _ hdx
  have e : dx + l - r = dx - (r - l) := by ring
  rw [e]
  exact h

theorem centre_error (l r dx : ℚ) (hdx : Binary32.round (r - l) = Binary32.finite dx) :
    |dx * (1 / 2) + l - (l + r) / 2| ≤ max (|r - l| / 2 ^ 24) (1 / 2 ^ 150) / 2 := by
  have h := Binary32.round_err _ _ hdx
  have e : dx * (1 / 2) + l - (l + r) / 2 = (dx - (r - l)) / 2 := by ring
  rw [e, abs_div, abs_of_pos (by norm_num : (0 : ℚ) < 2)]
  exact div_le_div_of_nonneg_right h (by norm_num)

theorem corner_error_binary32 (l r dx x : ℚ)
    (hdx : Binary32.round (r - l) = Binary32.finite dx)
    (hx : Binary32.round (dx + l) = Binary32.finite x) :
    |x - r| ≤ max (|r - l| / 2 ^ 24) (1 / 2 ^ 150) + max (|dx + l| / 2 ^ 24) (1 / 2 ^ 150) := by
  have h1 := corner_error l r dx hdx
  have h2 := Binary32.round_err _ _ hx
  have e : x - r = (x - (dx + l)) + (dx + l - r) := by ring
  rw [e]
  have h3 := abs_add (x - (dx + l)) (dx + l - r)
  linarith

/-! ## The calibration bounds of the sample states -/

theorem startState32_bounds :
    startState32.kpLeft = Binary32.finite (-(8590922 / 2 ^ 30))
      ∧ startState32.kpRight = Binary32.finite (15653092 / 2 ^ 24)
      ∧ startState32.kpTop = Binary32.finite (16257055 / 2 ^ 24)
      ∧ startState32.kpBottom = Binary32.finite (12750698 / 2 ^ 27) := by
  refine ⟨?_, ?_, ?_, ?_⟩
  · show -(0.00800092 : Binary32) = _
    rw [binary32_kpLeft_abs, Binary32.neg_finite]
  · show (0.932997 : Binary32) = _
    exact binary32_kpRight
  · show (0.968996 : Binary32) = _
    exact binary32_kpTop
  · show (0.0950001 : Binary32) = _
    exact binary32_kpBottom

theorem leftMovedState32_bounds :
    leftMovedState32.kpLeft = Binary32.finite (-(14495638 / 2 ^ 27))
      ∧ leftMovedState32.kpRight = Binary32.finite (15653092 / 2 ^ 24)
      ∧ leftMovedState32.kpTop = Binary32.finite (16257055 / 2 ^ 24)
      ∧ leftMovedState32.kpBottom = Binary32.finite (12750698 / 2 ^ 27) := by
  obtain ⟨h1, h2, h3, h4⟩ := startState32_bounds
  have hf : startState32.fine = false := rfl
  have hk : leftMovedState32.kpLeft = startState32.kpLeft - 0.05 - 0.05 := by
    simp [leftMovedState32, keyPress, keyDelta, hf]
  refine ⟨?_, ?_, ?_, ?_⟩
  · rw [hk, h1, binary32_deltaCoarse, Binary32.finite_sub, binary32_left_step1,
      Binary32.finite_sub, binary32_left_step2]
  · rw [← h2]
    simp [leftMovedState32, keyPress]
  · rw [← h3]
    simp [leftMovedState32, keyPress]
  · rw [← h4]
    simp [leftMovedState32, keyPress]

theorem scenarioState32_bounds :
    scenarioState32.kpLeft = Binary32.finite (-(8589935 / 2 ^ 30))
      ∧ scenarioState32.kpRight = Binary32.finite (15653143 / 2 ^ 24)
      ∧ scenarioState32.kpTop = Binary32.finite (16257122 / 2 ^ 24)
      ∧ scenarioState32.kpBottom = Binary32.finite (12750684 / 2 ^ 27) := by
  refine ⟨?_, ?_, ?_, ?_⟩
  · show -(0.008 : Binary32) = _
    rw [binary32_scenario_left_abs, Binary32.neg_finite]
  · show (0.933 : Binary32) = _
    exact binary32_scenario_right
  · show (0.969 : Binary32) = _
    exact binary32_scenario_top
  · show (0.095 : Binary32) = _
    exact binary32_scenario_bottom

theorem display_not_ready {F : Type} [Zero F] [One F] [Sub F] (c : NuiImageCamera)
    (sensor : SensorTick) (s : State F) (hc : sensor.color.hr < 0)
    (hd : FAILED sensor.depth.hr = true) :
    display c sensor s =
      some (s,
        { texture := if s.viewmode = 0 then Texture.colorTex else Texture.depthTex
          xform := displayXform s.kpLeft s.kpRight s.kpTop s.kpBottom
          viewmode := s.viewmode }) := by
  unfold display
  rw [kinectGetColor_not_ready _ s hc, kinectGetDepth_not_ready c _ s hd]
  simp

/-! ## The corners of the texture square (C2) -/

/-- C2, as stated, fails.  After two key-downs of `A` from the start state
the bounds are binary32 numbers, `kpRight` is 15653092/2^24, and entry
`[0][0]` of the matrix `display` builds is the rounded difference
8732523/2^23.  The image of (1,1) has first coordinate 62612365/2^26 when
the matrix is applied exactly and 15653091/2^24 when it is applied in
binary32; neither is `kpRight`. -/
theorem display_corner_not_exact :
    ∃ (d : DrawCall Binary32) (M : Mat4 ℚ),
      display sdkConstants notReadyTick leftMovedState32 = some (leftMovedState32, d)
        ∧ leftMovedState32.kpRight = Binary32.finite (15653092 / 2 ^ 24)
        ∧ d.xform 0 0 = Binary32.finite (8732523 / 2 ^ 23)
        ∧ d.xform.exact? = some M
        ∧ (M.mulVec ⟨1, 1, 0, 1⟩).x = 62612365 / 2 ^ 26
        ∧ (M.mulVec ⟨1, 1, 0, 1⟩).x ≠ 15653092 / 2 ^ 24
        ∧ (d.xform.mulVec ⟨1, 1, 0, 1⟩).x = Binary32.finite (15653091 / 2 ^ 24)
        ∧ (d.xform.mulVec ⟨1, 1, 0, 1⟩).x ≠ leftMovedState32.kpRight := by
  obtain ⟨h1, h2, h3, h4⟩ := leftMovedState32_bounds
  have hl := Binary32.round_rep _ _ binary32_left_step2
  have hb := Binary32.round_rep _ _ ((binary32_literal _ _ _).symm.trans binary32_kpBottom)
  obtain ⟨M, hM, hMv⟩ := displayXform_exact _ _ _ _ _ _ binary32_moved_dx binary32_start_dy
  have hf := displayXform_binary32_corner _ _ _ _ _ _ hl hb binary32_moved_dx binary32_start_dy
  rw [binary32_moved_corner_x] at hf
  refine ⟨_, M, display_not_ready _ _ _ (by decide) (by decide), h2, ?_, ?_, ?_, ?_, ?_, ?_⟩
  · simp only [h1, h2, h3, h4]
    rw [(displayXform_entries _ _ _ _).1, Binary32.finite_sub, binary32_moved_dx]
  · simp only [h1, h2, h3, h4]
    exact hM
  · rw [hMv 1 1]
    norm_num
  · rw [hMv 1 1]
    norm_num
  · simp only [h1, h2, h3, h4]
    rw [hf]
  · simp only [h1, h2, h3, h4]
    rw [hf]
    intro h
    injection h with h
    norm_num at h

/-- C2, amended.  For all finite binary32 bounds `left`, `right`, `top`,
`bottom`, in any order, whose differences do not overflow, the matrix
`display` builds has `fl(right - left)` and `fl(top - bottom)` as its scale
entries, `fl` being rounding to binary32.  Applied to `(u, v, 0, 1)` it
sends (0,0) exactly to `(left, bottom)`, both as an exact product and as a
binary32 product.  It sends (1,1) to
`(fl(right - left) + left, fl(top - bottom) + bottom)` as an exact product,
and to the binary32 rounding of that as a binary32 product.  The exact
image is `(right, top)` when the two subtractions are exact, and in general
each coordinate is within `max(|difference| / 2^24, 2^-150)` of it; the
binary32 image adds the error of one more rounding. -/
theorem display_corners_binary32 (c : NuiImageCamera) (sensor : SensorTick)
    (s s1 : State Binary32) (d : DrawCall Binary32) (l r t b dx dy : ℚ)
    (hd : display c sensor s = some (s1, d))
    (hl : s.kpLeft = Binary32.finite l) (hr : s.kpRight = Binary32.finite r)
    (ht : s.kpTop = Binary32.finite t) (hb : s.kpBottom = Binary32.finite b)
    (hlrep : Binary32.round l = Binary32.finite l)
    (hbrep : Binary32.round b = Binary32.finite b)
    (hdx : s.kpRight - s.kpLeft = Binary32.finite dx)
    (hdy : s.kpTop - s.kpBottom = Binary32.finite dy) :
    d.xform 0 0 = Binary32.finite dx ∧ d.xform 1 1 = Binary32.finite dy
      ∧ dx = roundBinary 24 (-149) (r - l) ∧ dy = roundBinary 24 (-149) (t - b)
      ∧ (∃ M : Mat4 ℚ, d.xform.exact? = some M
          ∧ M.mulVec ⟨0, 0, 0, 1⟩ = ⟨l, b, 0, 1⟩
          ∧ M.mulVec ⟨1, 1, 0, 1⟩ = ⟨dx + l, dy + b, 0, 1⟩
          ∧ (dx = r - l → dy = t - b → M.mulVec ⟨1, 1, 0, 1⟩ = ⟨r, t, 0, 1⟩))
      ∧ |dx + l - r| ≤ max (|r - l| / 2 ^ 24) (1 / 2 ^ 150)
      ∧ |dy + b - t| ≤ max (|t - b| / 2 ^ 24) (1 / 2 ^ 150)
      ∧ d.xform.mulVec ⟨0, 0, 0, 1⟩ = ⟨Binary32.finite l, Binary32.finite b, 0, 1⟩
      ∧ d.xform.mulVec ⟨1, 1, 0, 1⟩ = ⟨Binary32.round (dx + l), Binary32.round (dy + b), 0, 1⟩
      ∧ (∀ x : ℚ, Binary32.round (dx + l) = Binary32.finite x →
          |x - r| ≤ max (|r - l| / 2 ^ 24) (1 / 2 ^ 150)
            + max (|dx + l| / 2 ^ 24) (1 / 2 ^ 150))
      ∧ (∀ y : ℚ, Binary32.round (dy + b) = Binary32.finite y →
          |y - t| ≤ max (|t - b| / 2 ^ 24) (1 / 2 ^ 150)
            + max (|dy + b| / 2 ^ 24) (1 / 2 ^ 150)) := by
  have hx := display_xform c sensor s s1 d hd
  rw [hl, hr, ht, hb] at hx
  rw [hl, hr, Binary32.finite_sub] at hdx
  rw [ht, hb, Binary32.finite_sub] at hdy
  obtain ⟨M, hM, hMv⟩ := displayXform_exact l r t b dx dy hdx hdy
  rw [hx]
  refine ⟨?_, ?_, Binary32.round_value _ _ hdx, Binary32.round_value _ _ hdy,
    ⟨M, hM, ?_, ?_, ?_⟩, corner_error l r dx hdx, corner_error b t dy hdy,
    displayXform_binary32_origin l r t b dx dy hlrep hbrep hdx hdy,
    displayXform_binary32_corner l r t b dx dy hlrep hbrep hdx hdy,
    fun x hx1 => corner_error_binary32 l r dx x hdx hx1,
    fun y hy1 => corner_error_binary32 b t dy y hdy hy1⟩
  · rw [(displayXform_entries _ _ _ _).1, Binary32.finite_sub, hdx]
  · rw [(displayXform_entries _ _ _ _).2.2.1, Binary32.finite_sub, hdy]
  · rw [hMv 0 0]
    simp
  · rw [hMv 1 1]
    simp
  · intro e1 e2
    rw [hMv 1 1, e1, e2]
    simp

/-- The amended C2 at the start state, on a tick with no frame ready: the
bounds are the binary32 values of the initialisers, the scale entries are
15787325/2^24 and 14663218/2^24, and (0,0) goes exactly to
`(kpLeft, kpBottom)`. -/
theorem display_corners_binary32_witness :
    ∃ d : DrawCall Binary32,
      display sdkConstants notReadyTick startState32 = some (startState32, d)
        ∧ startState32.kpRight - startState32.kpLeft = Binary32.finite (15787325 / 2 ^ 24)
        ∧ startState32.kpTop - startState32.kpBottom = Binary32.finite (14663218 / 2 ^ 24)
        ∧ d.xform 0 0 = Binary32.finite (15787325 / 2 ^ 24)
        ∧ d.xform.mulVec ⟨0, 0, 0, 1⟩
            = ⟨Binary32.finite (-(8590922 / 2 ^ 30)), Binary32.finite (12750698 / 2 ^ 27), 0, 1⟩
        ∧ |(15787325 / 2 ^ 24 : ℚ) + -(8590922 / 2 ^ 30) - 15653092 / 2 ^ 24|
            ≤ max (|(15653092 / 2 ^ 24 : ℚ) - -(8590922 / 2 ^ 30)| / 2 ^ 24) (1 / 2 ^ 150) := by
  obtain ⟨h1, h2, h3, h4⟩ := startState32_bounds
  have hdx : startState32.kpRight - startState32.kpLeft
      = Binary32.finite (15787325 / 2 ^ 24) := by
    rw [h1, h2, Binary32.finite_sub, binary32_start_dx]
  have hdy : startState32.kpTop - startState32.kpBottom
      = Binary32.finite (14663218 / 2 ^ 24) := by
    rw [h3, h4, Binary32.finite_sub, binary32_start_dy]
  have h := display_corners_binary32 sdkConstants notReadyTick startState32 startState32 _
    _ _ _ _ _ _ (display_not_ready _ _ _ (by decide) (by decide)) h1 h2 h3 h4
    binary32_rep_left
    (Binary32.round_rep _ _ ((binary32_literal _ _ _).symm.trans binary32_kpBottom)) hdx hdy
  exact ⟨_, display_not_ready _ _ _ (by decide) (by decide), hdx, hdy, h.1, h.2.2.2.2.2.2.2.1,
    h.2.2.2.2.2.1⟩

/-! ## The centre of the texture square (C7) -/

theorem centre_error_binary32 (l r dx h x : ℚ)
    (hdx : Binary32.round (r - l) = Binary32.finite dx)
    (hh : Binary32.round (dx * (1 / 2)) = Binary32.finite h)
    (hx : Binary32.round (h + l) = Binary32.finite x) :
    |x - (l + r) / 2| ≤ max (|r - l| / 2 ^ 24) (1 / 2 ^ 150) / 2
      + max (|dx * (1 / 2)| / 2 ^ 24) (1 / 2 ^ 150)
      + max (|h + l| / 2 ^ 24) (1 / 2 ^ 150) := by
  have h1 := centre_error l r dx hdx
  have h2 := Binary32.round_err _ _ hh
  have h3 := Binary32.round_err _ _ hx
  have e : x - (l + r) / 2
      = (x - (h + l)) + ((h - dx * (1 / 2)) + (dx * (1 / 2) + l - (l + r) / 2)) := by ring
  rw [e]
  have h4 := abs_add (x - (h + l)) ((h - dx * (1 / 2)) + (dx * (1 / 2) + l - (l + r) / 2))
  have h5 := abs_add (h - dx * (1 / 2)) (dx * (1 / 2) + l - (l + r) / 2)
  linarith

/-- C7, as stated, fails.  At the start state the bounds are the binary32
values of the initialisers, `kpLeft` = -8590922/2^30 and `kpRight` =
15653092/2^24.  The image of (0.5, 0.5) under the matrix `display` builds
has first coordinate 248301739/2^29 when the matrix is applied exactly and
15518859/2^25 when it is applied in binary32; neither is the midpoint
`(kpLeft + kpRight) / 2`, and neither is 0.4625. -/
theorem display_midpoint_not_exact :
    ∃ (d : DrawCall Binary32) (M : Mat4 ℚ),
      display sdkConstants notReadyTick startState32 = some (startState32, d)
        ∧ startState32.kpLeft = Binary32.finite (-(8590922 / 2 ^ 30))
        ∧ startState32.kpRight = Binary32.finite (15653092 / 2 ^ 24)
        ∧ d.xform.exact? = some M
        ∧ (M.mulVec ⟨0.5, 0.5, 0, 1⟩).x = 248301739 / 2 ^ 29
        ∧ (M.mulVec ⟨0.5, 0.5, 0, 1⟩).x ≠ (-(8590922 / 2 ^ 30) + 15653092 / 2 ^ 24) / 2
        ∧ (M.mulVec ⟨0.5, 0.5, 0, 1⟩).x ≠ 0.4625
        ∧ (d.xform.mulVec ⟨0.5, 0.5, 0, 1⟩).x = Binary32.finite (15518859 / 2 ^ 25)
        ∧ (15518859 / 2 ^ 25 : ℚ) ≠ (-(8590922 / 2 ^ 30) + 15653092 / 2 ^ 24) / 2
        ∧ (15518859 / 2 ^ 25 : ℚ) ≠ 0.4625 := by
  obtain ⟨h1, h2, h3, h4⟩ := startState32_bounds
  have hb := Binary32.round_rep _ _ ((binary32_literal _ _ _).symm.trans binary32_kpBottom)
  obtain ⟨M, hM, hMv⟩ := displayXform_exact _ _ _ _ _ _ binary32_start_dx binary32_start_dy
  have hf := displayXform_binary32_centre _ _ _ _ _ _ binary32_rep_left hb binary32_start_dx
    binary32_start_dy
  rw [binary32_start_half_dx, Binary32.finite_add, binary32_start_mid_x] at hf
  refine ⟨_, M, display_not_ready _ _ _ (by decide) (by decide), h1, h2, ?_, ?_, ?_, ?_, ?_,
    by norm_num, by norm_num⟩
  · simp only [h1, h2, h3, h4]
    exact hM
  · rw [hMv]
    norm_num
  · rw [hMv]
    norm_num
  · rw [hMv]
    norm_num
  · simp only [h1, h2, h3, h4]
    rw [hf]

/-- C7, amended.  For all finite binary32 bounds whose differences do not
overflow, the matrix `display` builds sends texture coordinate (0.5, 0.5)
to `(fl(right - left) / 2 + left, fl(top - bottom) / 2 + bottom)` as an
exact product, `fl` being rounding to binary32, and to
`(fl(fl(right - left) / 2) + left, fl(fl(top - bottom) / 2) + bottom)`
with binary32 addition as a binary32 product.  The exact image is the
midpoint `((left + right) / 2, (bottom + top) / 2)` when the two
subtractions are exact, and in general each coordinate is within
`max(|difference| / 2^24, 2^-150) / 2` of it; the binary32 image adds the
errors of two more roundings.  For the binary32 values of left = -0.008,
right = 0.933, top = 0.969, bottom = 0.095 both images are within 10^-7 of
(0.4625, 0.532). -/
theorem display_midpoint_binary32 :
    (∀ (c : NuiImageCamera) (sensor : SensorTick) (s s1 : State Binary32)
        (d : DrawCall Binary32) (l r t b dx dy : ℚ),
        display c sensor s = some (s1, d) →
        s.kpLeft = Binary32.finite l → s.kpRight = Binary32.finite r →
        s.kpTop = Binary32.finite t → s.kpBottom = Binary32.finite b →
        Binary32.round l = Binary32.finite l → Binary32.round b = Binary32.finite b →
        s.kpRight - s.kpLeft = Binary32.finite dx →
        s.kpTop - s.kpBottom = Binary32.finite dy →
        dx = roundBinary 24 (-149) (r - l) ∧ dy = roundBinary 24 (-149) (t - b)
          ∧ (∃ M : Mat4 ℚ, d.xform.exact? = some M
              ∧ M.mulVec ⟨0.5, 0.5, 0, 1⟩ = ⟨dx * (1 / 2) + l, dy * (1 / 2) + b, 0, 1⟩
              ∧ (dx = r - l → dy = t - b →
                  M.mulVec ⟨0.5, 0.5, 0, 1⟩ = ⟨(l + r) / 2, (b + t) / 2, 0, 1⟩))
          ∧ |dx * (1 / 2) + l - (l + r) / 2| ≤ max (|r - l| / 2 ^ 24) (1 / 2 ^ 150) / 2
          ∧ |dy * (1 / 2) + b - (b + t) / 2| ≤ max (|t - b| / 2 ^ 24) (1 / 2 ^ 150) / 2
          ∧ d.xform.mulVec ⟨0.5, 0.5, 0, 1⟩
              = ⟨Binary32.round (dx * (1 / 2)) + Binary32.finite l,
                  Binary32.round (dy * (1 / 2)) + Binary32.finite b, 0, 1⟩
          ∧ (∀ h x : ℚ, Binary32.round (dx * (1 / 2)) = Binary32.finite h →
              Binary32.round (h + l) = Binary32.finite x →
              |x - (l + r) / 2| ≤ max (|r - l| / 2 ^ 24) (1 / 2 ^ 150) / 2
                + max (|dx * (1 / 2)| / 2 ^ 24) (1 / 2 ^ 150)
                + max (|h + l| / 2 ^ 24) (1 / 2 ^ 150))
          ∧ (∀ h y : ℚ, Binary32.round (dy * (1 / 2)) = Binary32.finite h →
              Binary32.round (h + b) = Binary32.finite y →
              |y - (b + t) / 2| ≤ max (|t - b| / 2 ^ 24) (1 / 2 ^ 150) / 2
                + max (|dy * (1 / 2)| / 2 ^ 24) (1 / 2 ^ 150)
                + max (|h + b| / 2 ^ 24) (1 / 2 ^ 150)))
      ∧ (∃ (d : DrawCall Binary32) (M : Mat4 ℚ) (x y : ℚ),
          display sdkConstants notReadyTick scenarioState32 = some (scenarioState32, d)
            ∧ scenarioState32.kpLeft = -0.008 ∧ scenarioState32.kpRight = 0.933
            ∧ scenarioState32.kpTop = 0.969 ∧ scenarioState32.kpBottom = 0.095
            ∧ d.xform.exact? = some M
            ∧ M.mulVec ⟨0.5, 0.5, 0, 1⟩ = ⟨x, y, 0, 1⟩
            ∧ |x - 0.4625| ≤ 1 / 10 ^ 7 ∧ |y - 0.532| ≤ 1 / 10 ^ 7
            ∧ d.xform.mulVec ⟨0.5, 0.5, 0, 1⟩
                = ⟨Binary32.finite (15518926 / 2 ^ 25), Binary32.finite (8925478 / 2 ^ 24), 0, 1⟩
            ∧ |(15518926 / 2 ^ 25 : ℚ) - 0.4625| ≤ 1 / 10 ^ 7
            ∧ |(8925478 / 2 ^ 24 : ℚ) - 0.532| ≤ 1 / 10 ^ 7) := by
  constructor
  · intro c sensor s s1 d l r t b dx dy hd hl hr ht hb hlrep hbrep hdx hdy
    have hx := display_xform c sensor s s1 d hd
    rw [hl, hr, ht, hb] at hx
    rw [hl, hr, Binary32.finite_sub] at hdx
    rw [ht, hb, Binary32.finite_sub] at hdy
    obtain ⟨M, hM, hMv⟩ := displayXform_exact l r t b dx dy hdx hdy
    rw [hx]
    have e : (0.5 : ℚ) = 1 / 2 := by norm_num
    refine ⟨Binary32.round_value _ _ hdx, Binary32.round_value _ _ hdy,
      ⟨M, hM, ?_, ?_⟩, centre_error l r dx hdx, centre_error b t dy hdy,
      displayXform_binary32_centre l r t b dx dy hlrep hbrep hdx hdy,
      fun h x hh hx1 => centre_error_binary32 l r dx h x hdx hh hx1,
      fun h y hh hy1 => centre_error_binary32 b t dy h y hdy hh hy1⟩
    · rw [hMv, e]
    · intro e1 e2
      rw [hMv, e1, e2, e]
      congr 1 <;> ring
  · obtain ⟨h1, h2, h3, h4⟩ := scenarioState32_bounds
    have hb := Binary32.round_rep _ _
      ((binary32_literal _ _ _).symm.trans binary32_scenario_bottom)
    obtain ⟨M, hM, hMv⟩ :=
      displayXform_exact _ _ _ _ _ _ binary32_scenario_dx binary32_scenario_dy
    have hf := displayXform_binary32_centre _ _ _ _ _ _ binary32_rep_scenario_left hb
      binary32_scenario_dx binary32_scenario_dy
    rw [binary32_scenario_half_dx, binary32_scenario_half_dy, Binary32.finite_add,
      Binary32.finite_add, binary32_scenario_mid_x, binary32_scenario_mid_y] at hf
    refine ⟨_, M, _, _, display_not_ready _ _ _ (by decide) (by decide), rfl, rfl, rfl, rfl,
      ?_, hMv 0.5 0.5, ?_, ?_, ?_, ?_, ?_⟩
    · simp only [h1, h2, h3, h4]
      exact hM
    · rw [abs_le]; constructor <;> norm_num
    · rw [abs_le]; constructor <;> norm_num
    · simp only [h1, h2, h3, h4]
      rw [hf]
    · rw [abs_le]; constructor <;> norm_num
    · rw [abs_le]; constructor <;> norm_num

/-- The amended C7 at the start state, on a tick with no frame ready: the
exact image of (0.5, 0.5) has first coordinate
`15787325/2^24 * (1/2) + kpLeft`, within the stated bound of the
midpoint of `kpLeft` and `kpRight`. -/
theorem display_midpoint_binary32_witness :
    ∃ d : DrawCall Binary32,
      display sdkConstants notReadyTick startState32 = some (startState32, d)
        ∧ startState32.kpRight - startState32.kpLeft = Binary32.finite (15787325 / 2 ^ 24)
        ∧ startState32.kpTop - startState32.kpBottom = Binary32.finite (14663218 / 2 ^ 24)
        ∧ |(15787325 / 2 ^ 24 : ℚ) * (1 / 2) + -(8590922 / 2 ^ 30)
              - (-(8590922 / 2 ^ 30) + 15653092 / 2 ^ 24) / 2|
            ≤ max (|(15653092 / 2 ^ 24 : ℚ) - -(8590922 / 2 ^ 30)| / 2 ^ 24) (1 / 2 ^ 150) / 2
        ∧ d.xform.mulVec ⟨0.5, 0.5, 0, 1⟩
            = ⟨Binary32.round (15787325 / 2 ^ 24 * (1 / 2))
                  + Binary32.finite (-(8590922 / 2 ^ 30)),
                Binary32.round (14663218 / 2 ^ 24 * (1 / 2))
                  + Binary32.finite (12750698 / 2 ^ 27), 0, 1⟩ := by
  obtain ⟨h1, h2, h3, h4⟩ := startState32_bounds
  have hdx : startState32.kpRight - startState32.kpLeft
      = Binary32.finite (15787325 / 2 ^ 24) := by
    rw [h1, h2, Binary32.finite_sub, binary32_start_dx]
  have hdy : startState32.kpTop - startState32.kpBottom
      = Binary32.finite (14663218 / 2 ^ 24) := by
    rw [h3, h4, Binary32.finite_sub, binary32_start_dy]
  have h := display_midpoint_binary32.1 sdkConstants notReadyTick startState32 startState32 _
    _ _ _ _ _ _ (display_not_ready _ _ _ (by decide) (by decide)) h1 h2 h3 h4
    binary32_rep_left
    (Binary32.round_rep _ _ ((binary32_literal _ _ _).symm.trans binary32_kpBottom)) hdx hdy
  exact ⟨_, display_not_ready _ _ _ (by decide) (by decide), hdx, hdy, h.2.2.2.1,
    h.2.2.2.2.2.1⟩

end KinectSandbox
